import Mathlib

/-!
# Azure DevOps VCS client adapter (`server/events/vcs/azuredevops_client.go`)

A shallow embedding of the adapter's operations.  Go values are embedded as follows.

* A Go `string` is a Lean `String`; the only byte the adapter searches for is `/`, which is a
  single byte that never occurs inside a multi-byte UTF-8 sequence, so slicing at a `/` gives the
  same pieces whether positions count bytes or characters.
* A Go pointer that is only nil-checked or dereferenced is an `Option`; dereferencing `none`
  is the run-time panic `Outcome.nilDeref`.
* A Go pointer whose identity is observed (`==` between pointers) is a `Ref`, which carries the
  address of the variable it points to.
* A Go `error` is an `Option GoError` (`none` is the nil error).
* The outbound client is a record of transition functions over a host state `σ`; every adapter
  operation returns the host state it leaves, the outbound calls it issued, in order, and what
  it returned.
-/

namespace AzureDevops

/-! ## Go runtime values -/

/-- Go error values, as the adapter builds them: an error handed back by the client library,
`errors.Wrap(cause, msg)`, and `errors.New(msg)` or `fmt.Errorf`. -/
inductive GoError where
  | transport (msg : String)
  | wrapped (cause : GoError) (msg : String)
  | plain (msg : String)
  deriving DecidableEq, Repr

/-- The `Error()` method: `errors.Wrap` renders as `msg: cause`. -/
def GoError.Error : GoError → String
  | .transport msg => msg
  | .wrapped cause msg => msg ++ ": " ++ cause.Error
  | .plain msg => msg

/-- Go `errors.Wrap(err, msg)` of `github.com/pkg/errors`: nil stays nil. -/
def errorsWrap (err : Option GoError) (msg : String) : Option GoError :=
  match err with
  | none => none
  | some e => some (.wrapped e msg)

/-- What a Go call does: it returns a value, or it panics on a nil pointer dereference. -/
inductive Outcome (α : Type) where
  | returned (a : α)
  | nilDeref
  deriving DecidableEq, Repr

/-- A pointer whose identity matters: the address of the variable and the variable's contents. -/
structure Ref (α : Type) where
  addr : Nat
  val : α
  deriving DecidableEq, Repr

/-- Go `p == q` on pointers: both nil, or both pointing to the same variable. -/
def ptrEq {α : Type} (p q : Option (Ref α)) : Bool :=
  match p, q with
  | none, none => true
  | some a, some b => a.addr == b.addr
  | _, _ => false

/-- Go `strings.Contains(s, substr)`. -/
def stringsContains (s substr : String) : Bool :=
  s.data.tails.any (fun t => substr.data.isPrefixOf t)

/-! ## `models` package -/

/-- Modelled from the spec: `models.Repo` of package `server/events/models`, whose declaration is
missing; only the fields the adapter and its tests use. -/
structure Repo where
  FullName : String := ""
  Owner : String := ""
  Name : String := ""
  deriving DecidableEq, Repr

/-- Modelled from the spec: `models.PullRequest` of package `server/events/models`, whose
declaration is missing; only the fields the adapter and its tests use. -/
structure PullRequest where
  Num : Int := 0
  HeadCommit : String := ""
  BaseRepo : Repo := {}
  deriving DecidableEq, Repr

/-- Modelled from the spec: `models.CommitStatus`, a Go integer type whose declaration is
missing, with the three named values `Pending`, `Success`, `Failed`; every other
integer is an out-of-range status. -/
abbrev CommitStatus := Int

/-- Modelled from the spec: `models.PendingCommitStatus`. -/
def PendingCommitStatus : CommitStatus := 0

/-- Modelled from the spec: `models.SuccessCommitStatus`. -/
def SuccessCommitStatus : CommitStatus := 1

/-- Modelled from the spec: `models.FailedCommitStatus`. -/
def FailedCommitStatus : CommitStatus := 2

/-! ## `azuredevops` client library: enumerations -/

/-- Modelled from the spec: `azuredevops.GitStatusState`, declared in the vendored client
library, of which only the tests are present. -/
inductive GitStatusState where
  | GitError | GitFailed | GitNotApplicable | GitNotSet | GitPending | GitSucceeded
  deriving DecidableEq, Repr

/-- Modelled from the spec: the host strings of `GitStatusState` (`pending`, `succeeded`,
`failed` are the bodies `TestAzureDevopsClient_UpdateStatus` expects). -/
def GitStatusState.String : GitStatusState → String
  | .GitError => "error"
  | .GitFailed => "failed"
  | .GitNotApplicable => "notApplicable"
  | .GitNotSet => "notSet"
  | .GitPending => "pending"
  | .GitSucceeded => "succeeded"

/-- Modelled from the spec: `azuredevops.PullRequestMergeStatus`, declared in the vendored
client library, of which only the tests are present. -/
inductive PullRequestMergeStatus where
  | MergeConflicts | MergeFailure | MergeNotSet | MergeQueued | MergeRejectedByPolicy
  | MergeSucceeded
  deriving DecidableEq, Repr

/-- Modelled from the spec: the host strings of `PullRequestMergeStatus` (`succeeded` is the
`mergeStatus` of the successful merge response in `TestAzureDevopsClient_MergePull`). -/
def PullRequestMergeStatus.String : PullRequestMergeStatus → String
  | .MergeConflicts => "conflicts"
  | .MergeFailure => "failure"
  | .MergeNotSet => "notSet"
  | .MergeQueued => "queued"
  | .MergeRejectedByPolicy => "rejectedByPolicy"
  | .MergeSucceeded => "succeeded"

/-- Modelled from the spec: `azuredevops.VersionControlChangeType`, declared in the vendored
client library, of which only the tests are present; the members the adapter and the tests
name. -/
inductive VersionControlChangeType where
  | Add | Delete | Edit | Rename
  deriving DecidableEq, Repr

/-- Modelled from the spec: the host strings of `VersionControlChangeType` (`add` is the
`changeType` in `TestGitService_GetChanges`). -/
def VersionControlChangeType.String : VersionControlChangeType → String
  | .Add => "add"
  | .Delete => "delete"
  | .Edit => "edit"
  | .Rename => "rename"

/-- Modelled from the spec: `azuredevops.GitPullRequestMergeStrategy`, declared in the vendored
client library, of which only the tests are present. -/
inductive GitPullRequestMergeStrategy where
  | NoFastForward | Rebase | RebaseMerge | Squash
  deriving DecidableEq, Repr

/-- Modelled from the spec: the host strings of the merge strategies (`noFastForward` is the
`mergeStrategy` of the merge responses in the tests). -/
def GitPullRequestMergeStrategy.String : GitPullRequestMergeStrategy → String
  | .NoFastForward => "noFastForward"
  | .Rebase => "rebase"
  | .RebaseMerge => "rebaseMerge"
  | .Squash => "squash"

/-- Modelled from the spec: the reviewer vote `Approved`. -/
def VoteApproved : Int := 10

/-- Modelled from the spec: the reviewer vote `ApprovedWithSuggestions`. -/
def VoteApprovedWithSuggestions : Int := 5

/-- Modelled from the spec: the reviewer vote `None`. -/
def VoteNone : Int := 0

/-- Modelled from the spec: the reviewer vote `WaitingForAuthor`. -/
def VoteWaitingForAuthor : Int := -5

/-- Modelled from the spec: the reviewer vote `Rejected`. -/
def VoteRejected : Int := -10

/-! ## `azuredevops` client library: wire structures

The library's declarations are missing (only its tests are present), so each structure lists
only the fields the adapter reads or writes.  A pointer field is an `Option`; a slice of
pointers is a list of `Option`s. -/

/-- Modelled from the spec: the `azuredevops.GitItem` of a change (library type). -/
structure GitItem where
  Path : Option String := none
  deriving DecidableEq, Repr

/-- Modelled from the spec: one entry of a commit's change set, `azuredevops.GitChange` (library
type).  `ChangeType` is a `*string` that the adapter compares by identity, so it keeps its
address. -/
structure GitChange where
  ChangeType : Option (Ref String) := none
  Item : Option GitItem := none
  SourceServerItem : Option String := none
  deriving DecidableEq, Repr

/-- Modelled from the spec: the change set of a commit, `azuredevops.GitCommitChanges` (library
type). -/
structure GitCommitChanges where
  Changes : List (Option GitChange) := []
  deriving DecidableEq, Repr

/-- Modelled from the spec: a commit reference, `azuredevops.GitCommitRef` (library type). -/
structure GitCommitRef where
  CommitID : Option String := none
  deriving DecidableEq, Repr

/-- Modelled from the spec: a reviewer with a vote, `azuredevops.IdentityRefWithVote` (library
type). -/
structure IdentityRefWithVote where
  ID : Option String := none
  Vote : Option Int := none
  deriving DecidableEq, Repr

/-- Modelled from the spec: a linked resource such as a work item, `azuredevops.ResourceRef`
(library type). -/
structure ResourceRef where
  ID : Option String := none
  deriving DecidableEq, Repr

/-- Modelled from the spec: an identity, `azuredevops.IdentityRef` (library type). -/
structure IdentityRef where
  Descriptor : Option String := none
  ID : Option String := none
  ImageURL : Option String := none
  deriving DecidableEq, Repr

/-- Modelled from the spec: the completion options of a merge,
`azuredevops.GitPullRequestCompletionOptions` (library type). -/
structure GitPullRequestCompletionOptions where
  BypassPolicy : Option Bool := none
  BypassReason : Option String := none
  DeleteSourceBranch : Option Bool := none
  MergeCommitMessage : Option String := none
  MergeStrategy : Option String := none
  SquashMerge : Option Bool := none
  TransitionWorkItems : Option Bool := none
  TriggeredByAutoComplete : Option Bool := none
  deriving DecidableEq, Repr

/-- Modelled from the spec: a pull request as the host reports it, `azuredevops.GitPullRequest`
(library type). -/
structure GitPullRequest where
  AutoCompleteSetBy : Option IdentityRef := none
  CompletionOptions : Option GitPullRequestCompletionOptions := none
  LastMergeSourceCommit : Option GitCommitRef := none
  MergeFailureMessage : Option String := none
  MergeStatus : Option String := none
  Reviewers : List (Option IdentityRefWithVote) := []
  WorkItemRefs : List (Option ResourceRef) := []
  deriving DecidableEq, Repr

/-- Modelled from the spec: the context of a commit status, `azuredevops.GitStatusContext`
(library type). -/
structure GitStatusContext where
  Name : Option String := none
  Genre : Option String := none
  deriving DecidableEq, Repr

/-- Modelled from the spec: a commit status, `azuredevops.GitStatus` (library type). -/
structure GitStatus where
  State : Option String := none
  Description : Option String := none
  Context : Option GitStatusContext := none
  TargetURL : Option String := none
  deriving DecidableEq, Repr

/-- Modelled from the spec: a work item comment, `azuredevops.WorkItemComment` (library type). -/
structure WorkItemComment where
  Text : Option String := none
  deriving DecidableEq, Repr

/-- Modelled from the spec: the options of a pull request fetch,
`azuredevops.PullRequestGetOptions` (library type). -/
structure PullRequestGetOptions where
  IncludeWorkItemRefs : Bool := false
  deriving DecidableEq, Repr

/-- Modelled from the spec: the library's nil-safe accessor `(*GitItem).GetPath`, the zero
value when unset. -/
def GitItem.GetPath (item : Option GitItem) : String :=
  match item with
  | some i => i.Path.getD ""
  | none => ""

/-- Modelled from the spec: the library's nil-safe accessor `(*GitChange).GetItem`. -/
def GitChange.GetItem (change : Option GitChange) : Option GitItem :=
  match change with
  | some c => c.Item
  | none => none

/-- Modelled from the spec: the library's nil-safe accessor
`(*GitChange).GetSourceServerItem`. -/
def GitChange.GetSourceServerItem (change : Option GitChange) : String :=
  match change with
  | some c => c.SourceServerItem.getD ""
  | none => ""

/-- Modelled from the spec: the library's nil-safe accessor
`(*GitPullRequest).GetLastMergeSourceCommit`. -/
def GitPullRequest.GetLastMergeSourceCommit (p : Option GitPullRequest) : Option GitCommitRef :=
  match p with
  | some pr => pr.LastMergeSourceCommit
  | none => none

/-- Modelled from the spec: the library's nil-safe accessor `(*GitCommitRef).GetCommitID`. -/
def GitCommitRef.GetCommitID (c : Option GitCommitRef) : String :=
  match c with
  | some r => r.CommitID.getD ""
  | none => ""

/-- Modelled from the spec: the library's nil-safe accessor
`(*GitPullRequest).GetMergeFailureMessage`. -/
def GitPullRequest.GetMergeFailureMessage (p : Option GitPullRequest) : String :=
  match p with
  | some pr => pr.MergeFailureMessage.getD ""
  | none => ""

/-! ## Outbound client and execution records -/

/-- Modelled from the spec: the outbound client `g.Client` (library type) over a host state
`σ`.  Each service method takes the host state and its arguments and gives back the decoded
value, the error, and the next host state (the `*http.Response` every method also returns is
discarded by every caller). -/
structure Client (σ : Type) where
  GetWithRepo : σ → String → String → String → Int → PullRequestGetOptions →
    (Option GitPullRequest × Option GoError) × σ
  GetChanges : σ → String → String → String → String →
    (Option GitCommitChanges × Option GoError) × σ
  CreateStatus : σ → String → String → String → String → GitStatus →
    (Option GitStatus × Option GoError) × σ
  Merge : σ → String → String → String → Int → GitPullRequest →
    GitPullRequestCompletionOptions → IdentityRef → (Option GitPullRequest × Option GoError) × σ
  CreateComment : σ → String → String → Int → WorkItemComment →
    (Option WorkItemComment × Option GoError) × σ

/-- An outbound call with the arguments the adapter passed. -/
inductive Call where
  | GetWithRepo (owner project repo : String) (num : Int) (opts : PullRequestGetOptions)
  | GetChanges (owner project repo commitID : String)
  | CreateStatus (owner project repo ref : String) (status : GitStatus)
  | Merge (owner project repo : String) (num : Int) (body : GitPullRequest)
      (opts : GitPullRequestCompletionOptions) (id : IdentityRef)
  | CreateComment (owner project : String) (workItemID : Int) (comment : WorkItemComment)
  deriving DecidableEq, Repr

/-- What one adapter operation did: the host state it left, the outbound calls it issued in
order, and what it returned (or that it panicked). -/
structure Exec (σ α : Type) where
  host : σ
  calls : List Call
  out : Outcome α

/-! ## `SplitAzureDevopsRepoFullName` -/

/-- Go `strings.Index(s, "/")`: the position of the first `/`, or `-1`. -/
def indexSlash (s : String) : Int :=
  if s.data.indexOf '/' < s.data.length then (s.data.indexOf '/' : Int) else -1

/-- Go `strings.LastIndex(s, "/")`: the position of the last `/`, or `-1`. -/
def lastIndexSlash (s : String) : Int :=
  if s.data.reverse.indexOf '/' < s.data.length
  then (s.data.length : Int) - 1 - (s.data.reverse.indexOf '/' : Int) else -1

/-- Go `strings.Count(s, "/")`. -/
def countSlash (s : String) : Int :=
  (s.data.count '/' : Int)

/-- The Go slice expression `s[lo:hi]`, for `0 ≤ lo ≤ hi ≤ len(s)`. -/
def goSlice (s : String) (lo hi : Int) : String :=
  String.mk ((s.data.drop lo.toNat).take (hi.toNat - lo.toNat))

/-- Function `SplitAzureDevopsRepoFullName` splits a repo full name into owner, project and repo. -/
def SplitAzureDevopsRepoFullName (repoFullName : String) : String × String × String :=
  let firstSlashIdx := indexSlash repoFullName
  let lastSlashIdx := lastIndexSlash repoFullName
  let slashCount := countSlash repoFullName
  let len : Int := (repoFullName.data.length : Int)
  if lastSlashIdx = -1 ∨ lastSlashIdx = len - 1 then
    ("", "", "")
  else if firstSlashIdx ≠ lastSlashIdx ∧ slashCount = 2 then
    (goSlice repoFullName 0 firstSlashIdx,
      goSlice repoFullName (firstSlashIdx + 1) lastSlashIdx,
      goSlice repoFullName (lastSlashIdx + 1) len)
  else
    (goSlice repoFullName 0 lastSlashIdx, "", goSlice repoFullName (lastSlashIdx + 1) len)

/-! ## `GetModifiedFiles` -/

/-- The addresses already in use by the `ChangeType` pointers of a decoded change list. -/
def usedAddrs (changes : List (Option GitChange)) : List Nat :=
  changes.filterMap (fun c => (c.bind (fun ch => ch.ChangeType)).map (fun r => r.addr))

/-- An address at which the runtime can place a newly declared variable: one above every
address in use (a new variable never shares its address with a live one). -/
def freshAddr (changes : List (Option GitChange)) : Nat :=
  (usedAddrs changes).foldr max 0 + 1

/-- The `for _, change := range r.Changes` loop of `GetModifiedFiles`.  `next` is where the
body's local `changeType` is allocated in this iteration. -/
def GetModifiedFiles.loop (next : Nat) :
    List (Option GitChange) → List String → Outcome (List String)
  | [], files => .returned files
  | change :: rest, files =>
    let item := GitChange.GetItem change
    let files := files ++ [GitItem.GetPath item]
    let changeType : Ref String := ⟨next, VersionControlChangeType.Rename.String⟩
    match change with
    | none => .nilDeref
    | some c =>
      if ptrEq c.ChangeType (some changeType) then
        GetModifiedFiles.loop (next + 1) rest (files ++ [GitChange.GetSourceServerItem change])
      else
        GetModifiedFiles.loop (next + 1) rest files

/-- Method `GetModifiedFiles` returns the names of the files modified in the pull request.
Both fetch errors are discarded (`_`); the returned error is always nil. -/
def GetModifiedFiles {σ : Type} (g : Client σ) (h : σ) (repo : Repo) (pull : PullRequest) :
    Exec σ (List String × Option GoError) :=
  let opts : PullRequestGetOptions := { IncludeWorkItemRefs := true }
  let (owner, project, repoName) := SplitAzureDevopsRepoFullName repo.FullName
  let ((commitIDResponse, _), h1) := g.GetWithRepo h owner project repoName pull.Num opts
  let commitID :=
    GitCommitRef.GetCommitID (GitPullRequest.GetLastMergeSourceCommit commitIDResponse)
  let ((r, _), h2) := g.GetChanges h1 owner project repoName commitID
  let calls := [Call.GetWithRepo owner project repoName pull.Num opts,
    Call.GetChanges owner project repoName commitID]
  match r with
  | none => { host := h2, calls := calls, out := .nilDeref }
  | some changes =>
    match GetModifiedFiles.loop (freshAddr changes.Changes) changes.Changes [] with
    | .returned files => { host := h2, calls := calls, out := .returned (files, none) }
    | .nilDeref => { host := h2, calls := calls, out := .nilDeref }


/-! ## `GetPullRequest` -/

/-- Method `GetPullRequest` returns the pull request: the fetch with work-item references that the
other operations also start with. -/
def GetPullRequest {σ : Type} (g : Client σ) (h : σ) (repo : Repo) (num : Int) :
    Exec σ (Option GitPullRequest × Option GoError) :=
  let opts : PullRequestGetOptions := { IncludeWorkItemRefs := true }
  let (owner, project, repoName) := SplitAzureDevopsRepoFullName repo.FullName
  let ((pull, err), h1) := g.GetWithRepo h owner project repoName num opts
  { host := h1,
    calls := [Call.GetWithRepo owner project repoName num opts],
    out := .returned (pull, err) }

/-! ## `PullIsApproved` and `PullIsMergeable` -/

/-- The `for _, review := range adPull.Reviewers` loop of `PullIsApproved`: `false` at the
first non-nil reviewer whose vote is not `VoteApproved`, `true` when the range is exhausted;
`*review.Vote` on an unset vote panics. -/
def PullIsApproved.loop : List (Option IdentityRefWithVote) → Outcome Bool
  | [] => .returned true
  | none :: rest => PullIsApproved.loop rest
  | some review :: rest =>
    match review.Vote with
    | none => .nilDeref
    | some vote => if vote ≠ VoteApproved then .returned false else PullIsApproved.loop rest

/-- Method `PullIsApproved` returns true if the merge request was approved. -/
def PullIsApproved {σ : Type} (g : Client σ) (h : σ) (repo : Repo) (pull : PullRequest) :
    Exec σ (Bool × Option GoError) :=
  let opts : PullRequestGetOptions := { IncludeWorkItemRefs := true }
  let (owner, project, repoName) := SplitAzureDevopsRepoFullName repo.FullName
  let ((adPull, err), h1) := g.GetWithRepo h owner project repoName pull.Num opts
  let calls := [Call.GetWithRepo owner project repoName pull.Num opts]
  match err with
  | some e =>
    { host := h1, calls := calls,
      out := .returned (false, errorsWrap (some e) "getting pull request") }
  | none =>
    match adPull with
    | none => { host := h1, calls := calls, out := .nilDeref }
    | some p =>
      match PullIsApproved.loop p.Reviewers with
      | .returned b => { host := h1, calls := calls, out := .returned (b, err) }
      | .nilDeref => { host := h1, calls := calls, out := .nilDeref }

/-- Method `PullIsMergeable` returns true if the merge request can be merged. -/
def PullIsMergeable {σ : Type} (g : Client σ) (h : σ) (repo : Repo) (pull : PullRequest) :
    Exec σ (Bool × Option GoError) :=
  let opts : PullRequestGetOptions := { IncludeWorkItemRefs := true }
  let (owner, project, repoName) := SplitAzureDevopsRepoFullName repo.FullName
  let ((adPull, err), h1) := g.GetWithRepo h owner project repoName pull.Num opts
  let calls := [Call.GetWithRepo owner project repoName pull.Num opts]
  match err with
  | some e =>
    { host := h1, calls := calls,
      out := .returned (false, errorsWrap (some e) "getting pull request") }
  | none =>
    match adPull with
    | none => { host := h1, calls := calls, out := .nilDeref }
    | some p =>
      match p.MergeStatus with
      | none => { host := h1, calls := calls, out := .nilDeref }
      | some mergeStatus =>
        if mergeStatus ≠ PullRequestMergeStatus.MergeConflicts.String ∧
            mergeStatus ≠ PullRequestMergeStatus.MergeRejectedByPolicy.String then
          { host := h1, calls := calls, out := .returned (true, none) }
        else
          { host := h1, calls := calls, out := .returned (false, none) }

/-! ## `UpdateStatus` -/

/-- The `switch state` of `UpdateStatus`: the host state string for a commit status, starting
from `GitError.String()` and overwritten in the three named cases. -/
def UpdateStatus.adState (state : CommitStatus) : String :=
  let adState := GitStatusState.GitError.String
  if state = PendingCommitStatus then GitStatusState.GitPending.String
  else if state = SuccessCommitStatus then GitStatusState.GitSucceeded.String
  else if state = FailedCommitStatus then GitStatusState.GitFailed.String
  else adState

/-- The status object `UpdateStatus` builds before posting it. -/
def UpdateStatus.status (state : CommitStatus) (src description url : String) : GitStatus :=
  let adState := UpdateStatus.adState state
  let genreStr := "Atlantis Bot"
  let status : GitStatus :=
    { State := some adState,
      Description := some description,
      Context := some { Name := some src, Genre := some genreStr } }
  if url ≠ "" then { status with TargetURL := some url } else status

/-- Method `UpdateStatus` updates the build status of a commit. -/
def UpdateStatus {σ : Type} (g : Client σ) (h : σ) (repo : Repo) (pull : PullRequest)
    (state : CommitStatus) (src description url : String) : Exec σ (Option GoError) :=
  let status := UpdateStatus.status state src description url
  let (owner, project, repoName) := SplitAzureDevopsRepoFullName repo.FullName
  let ((_, err), h1) := g.CreateStatus h owner project repoName pull.HeadCommit status
  { host := h1,
    calls := [Call.CreateStatus owner project repoName pull.HeadCommit status],
    out := .returned err }

/-! ## `MergePull` -/

/-- Modelled from the spec: `common.AutomergeCommitMsg`, the fixed commit message of an
automatic merge; package `common` is missing, and no statement below depends on the text. -/
def AutomergeCommitMsg : String := "[Atlantis] Automatically merging after successful apply"

/-- The fixed automation identity `MergePull` sends. -/
def MergePull.id : IdentityRef :=
  { Descriptor := some "Atlantis Terraform Pull Request Automation",
    ID := some "atlantis",
    ImageURL := some
      "https://github.com/runatlantis/atlantis/raw/master/runatlantis.io/.vuepress/public/hero.png" }

/-- The default completion options `MergePull` sends (`new(bool)` is a pointer to `false`). -/
def MergePull.completionOpts : GitPullRequestCompletionOptions :=
  { BypassPolicy := some false,
    BypassReason := some "",
    DeleteSourceBranch := some false,
    MergeCommitMessage := some AutomergeCommitMsg,
    MergeStrategy := some GitPullRequestMergeStrategy.NoFastForward.String,
    SquashMerge := some false,
    TransitionWorkItems := some true,
    TriggeredByAutoComplete := some false }

/-- The request body `MergePull` constructs. -/
def MergePull.mergePull : GitPullRequest :=
  { AutoCompleteSetBy := some MergePull.id,
    CompletionOptions := some MergePull.completionOpts }

/-- The single `g.Client.PullRequests.Merge` call of `MergePull`: what the host answers
(merge result and error) and the host state after it. -/
def MergePull.response {σ : Type} (g : Client σ) (h : σ) (pull : PullRequest) :
    (Option GitPullRequest × Option GoError) × σ :=
  let (owner, project, repoName) := SplitAzureDevopsRepoFullName pull.BaseRepo.FullName
  g.Merge h owner project repoName pull.Num
    MergePull.mergePull MergePull.completionOpts MergePull.id

/-- The outbound call record of that merge call. -/
def MergePull.request (pull : PullRequest) : Call :=
  let (owner, project, repoName) := SplitAzureDevopsRepoFullName pull.BaseRepo.FullName
  Call.Merge owner project repoName pull.Num
    MergePull.mergePull MergePull.completionOpts MergePull.id

/-- Method `MergePull` merges the pull request using the default no fast-forward strategy. -/
def MergePull {σ : Type} (g : Client σ) (h : σ) (pull : PullRequest) :
    Exec σ (Option GoError) :=
  let ((mergeResult, err), h1) := MergePull.response g h pull
  let calls := [MergePull.request pull]
  match err with
  | some e =>
    { host := h1, calls := calls,
      out := .returned (errorsWrap (some e) "merging pull request") }
  | none =>
    match mergeResult with
    | none => { host := h1, calls := calls, out := .nilDeref }
    | some r =>
      match r.MergeStatus with
      | none => { host := h1, calls := calls, out := .nilDeref }
      | some mergeStatus =>
        if mergeStatus ≠ PullRequestMergeStatus.MergeSucceeded.String then
          { host := h1, calls := calls,
            out := .returned (some (.plain ("could not merge pull request: " ++
              GitPullRequest.GetMergeFailureMessage mergeResult))) }
        else
          { host := h1, calls := calls, out := .returned none }

/-! ## Observations on executions and fixed hosts -/

/-- The status objects posted by an execution, in order. -/
def postedStatuses {σ α : Type} (e : Exec σ α) : List GitStatus :=
  e.calls.filterMap (fun c =>
    match c with
    | .CreateStatus _ _ _ _ status => some status
    | _ => none)

/-- The canned answers of a host that answers every call of a kind the same way. -/
structure Answers where
  pull : Option GitPullRequest × Option GoError := (none, none)
  changes : Option GitCommitChanges × Option GoError := (none, none)
  status : Option GitStatus × Option GoError := (none, none)
  merge : Option GitPullRequest × Option GoError := (none, none)
  comment : Option WorkItemComment × Option GoError := (none, none)

/-- A stateless host that gives the canned answers, as the test servers do. -/
def fixedHost (a : Answers) : Client Unit :=
  { GetWithRepo := fun _ _ _ _ _ _ => (a.pull, ()),
    GetChanges := fun _ _ _ _ _ => (a.changes, ()),
    CreateStatus := fun _ _ _ _ _ _ => (a.status, ()),
    Merge := fun _ _ _ _ _ _ _ _ => (a.merge, ()),
    CreateComment := fun _ _ _ _ _ => (a.comment, ()) }

/-- The repository of the adapter tests. -/
def testRepo : Repo := { FullName := "owner/project/repo", Owner := "owner", Name := "repo" }

/-- A host whose change set for the commit is one rename of `old/main.tf` to `new/main.tf`. -/
def renameHost : Client Unit :=
  fixedHost
    { pull := (some { LastMergeSourceCommit := some { CommitID := some "b60280bc" } }, none),
      changes := (some { Changes := [some
        { ChangeType := some { addr := 0, val := "rename" },
          Item := some { Path := some "new/main.tf" },
          SourceServerItem := some "old/main.tf" }] }, none) }

/-- A host that answers the merge call with `405 Method Not Allowed`, as the client library
reports it in `TestAzureDevopsClient_MergePull`. -/
def notAllowedHost : Client Unit :=
  fixedHost
    { merge := (none, some (.transport "405 \x7bmessage: 405 Method Not Allowed\x7d")) }

/-- A host whose pull request has one approving reviewer, one nil reviewer and one reviewer
who approved with suggestions. -/
def suggestionsHost : Client Unit :=
  fixedHost
    { pull := (some { Reviewers :=
        [some { Vote := some VoteApproved }, none,
          some { Vote := some VoteApprovedWithSuggestions }] }, none) }

/-- A host whose pull request has merge conflicts. -/
def conflictsHost : Client Unit :=
  fixedHost
    { pull := (some { MergeStatus := some PullRequestMergeStatus.MergeConflicts.String },
        none) }

/-- A host that answers the merge call without a transport error but reports that the merge
hit conflicts. -/
def declinedMergeHost : Client Unit :=
  fixedHost
    { merge := (some
        { MergeStatus := some PullRequestMergeStatus.MergeConflicts.String,
          MergeFailureMessage := some "Merge conflict in main.tf" }, none) }

/-! ## `CreateComment` -/

/-- The value of a run of decimal digits, or `none` when the run is empty or holds another
character. -/
def parseDigits (cs : List Char) : Option Nat :=
  if cs = [] then none
  else cs.foldl (fun acc c =>
    match acc with
    | some n => if c.isDigit then some (n * 10 + (c.toNat - '0'.toNat)) else none
    | none => none) (some 0)

/-- Go `strconv.Atoi(s)`: an optional sign followed by decimal digits, within the range of a
64-bit `int`.  The message of the error is rendered for strings that `strconv.Quote` leaves
unescaped. -/
def strconvAtoi (s : String) : Except GoError Int :=
  let (neg, body) :=
    match s.data with
    | '-' :: rest => (true, rest)
    | '+' :: rest => (false, rest)
    | rest => (false, rest)
  match parseDigits body with
  | none => .error (.plain ("strconv.Atoi: parsing \"" ++ s ++ "\": invalid syntax"))
  | some n =>
    let v : Int := if neg then -(n : Int) else (n : Int)
    if v < -(2 : Int) ^ 63 ∨ (2 : Int) ^ 63 - 1 < v then
      .error (.plain ("strconv.Atoi: parsing \"" ++ s ++ "\": value out of range"))
    else .ok v

/-- Modelled from the spec: one segment of `common.SplitComment`, whose package is missing.
Portion `i` of `numComments` is the text from position
`i * maxWithSep` up to `(i + 1) * maxWithSep`, followed by `sepEnd` unless it is the last and
preceded by `sepStart` unless it is the first. -/
def SplitComment.portion (comment : List Char) (maxWithSep numComments : Nat)
    (sepEnd sepStart : String) (i : Nat) : String :=
  let upTo := min comment.length ((i + 1) * maxWithSep)
  let portion := (comment.drop (i * maxWithSep)).take (upTo - i * maxWithSep)
  let portion := if i + 1 < numComments then portion ++ sepEnd.data else portion
  let portion := if 0 < i then sepStart.data ++ portion else portion
  String.mk portion

/-- Modelled from the spec: the comment chunker `common.SplitComment`, whose package is
missing.  A text of at most `maxSize` characters is a single segment equal to the text;
a longer text is cut into consecutive pieces of `maxSize - len(sepEnd) - len(sepStart)`
characters, every segment but the last ending with the footer `sepEnd` and every segment but
the first beginning with the header `sepStart`. -/
def SplitComment (comment : String) (maxSize : Nat) (sepEnd sepStart : String) : List String :=
  if comment.length ≤ maxSize then [comment]
  else
    let maxWithSep := maxSize - sepEnd.length - sepStart.length
    let numComments := (comment.length + maxWithSep - 1) / maxWithSep
    (List.range numComments).map
      (SplitComment.portion comment.data maxWithSep numComments sepEnd sepStart)

/-- The footer `sepEnd` of `CreateComment`. -/
def CreateComment.sepEnd : String :=
  "\n```\n</details>" ++
    "\n<br>\n\n**Warning**: Output length greater than max comment size. Continued in next comment."

/-- The header `sepStart` of `CreateComment`. -/
def CreateComment.sepStart : String :=
  "Continued from previous comment.\n<details><summary>Show Output</summary>\n\n" ++
    "```diff\n"

/-- The constant `maxCommentLength` of `CreateComment`. -/
def CreateComment.maxCommentLength : Nat := 65536

/-- The call record of the submission of one converted segment to a work item. -/
def CreateComment.request (repo : Repo) (workItemID : Int) (text : String) : Call :=
  let (owner, project, _) := SplitAzureDevopsRepoFullName repo.FullName
  Call.CreateComment owner project workItemID { Text := some text }

/-- One `g.Client.WorkItems.CreateComment` call of the loop: the error the host answers and
the host state after it. -/
def CreateComment.submit {σ : Type} (g : Client σ) (h : σ) (repo : Repo) (workItemID : Int)
    (text : String) : Option GoError × σ :=
  let (owner, project, _) := SplitAzureDevopsRepoFullName repo.FullName
  let ((_, err), h1) := g.CreateComment h owner project workItemID { Text := some text }
  (err, h1)

/-- The `for _, c := range comments` loop of `CreateComment`: each segment is converted by
`blackfriday.Run` (the parameter `md`) and submitted; the first submission error is returned
at once.  An exhausted range falls through to the final bare `return`, which returns nil. -/
def CreateComment.loop {σ : Type} (g : Client σ) (md : String → String) (repo : Repo)
    (workItemID : Int) : σ → List String → Exec σ (Option GoError)
  | h, [] => { host := h, calls := [], out := .returned none }
  | h, c :: rest =>
    let s := md c
    let (err, h1) := CreateComment.submit g h repo workItemID s
    match err with
    | some e =>
      { host := h1, calls := [CreateComment.request repo workItemID s],
        out := .returned (some e) }
    | none =>
      let r := CreateComment.loop g md repo workItemID h1 rest
      { host := r.host, calls := CreateComment.request repo workItemID s :: r.calls,
        out := r.out }

/-- Method `CreateComment` creates a comment on the work item linked to `pullNum`.  The
markdown converter `blackfriday.Run` of the third-party library is the parameter `md`. -/
def CreateComment {σ : Type} (g : Client σ) (md : String → String) (h : σ) (repo : Repo)
    (pullNum : Int) (comment : String) : Exec σ (Option GoError) :=
  let comments := SplitComment comment CreateComment.maxCommentLength CreateComment.sepEnd
    CreateComment.sepStart
  let opts : PullRequestGetOptions := { IncludeWorkItemRefs := true }
  let (owner, project, repoName) := SplitAzureDevopsRepoFullName repo.FullName
  let ((pull, err), h1) := g.GetWithRepo h owner project repoName pullNum opts
  let fetch := Call.GetWithRepo owner project repoName pullNum opts
  match err with
  | some e => { host := h1, calls := [fetch], out := .returned (some e) }
  | none =>
    match pull with
    | none => { host := h1, calls := [fetch], out := .nilDeref }
    | some p =>
      if p.WorkItemRefs.length = 1 then
        match p.WorkItemRefs.head? with
        | some (some ref) =>
          match ref.ID with
          | none => { host := h1, calls := [fetch], out := .nilDeref }
          | some id =>
            match strconvAtoi id with
            | .error e => { host := h1, calls := [fetch], out := .returned (some e) }
            | .ok workItemID =>
              let r := CreateComment.loop g md repo workItemID h1 comments
              { host := r.host, calls := fetch :: r.calls, out := r.out }
        | _ => { host := h1, calls := [fetch], out := .nilDeref }
      else if 1 < p.WorkItemRefs.length then
        { host := h1, calls := [fetch],
          out := .returned
            (some (.plain "pull request linked to more than one work item - ignoring")) }
      else { host := h1, calls := [fetch], out := .returned none }

/-- The work-item comment-creation calls of an execution, in order. -/
def commentCalls {σ α : Type} (e : Exec σ α) : List Call :=
  e.calls.filter (fun c =>
    match c with
    | .CreateComment _ _ _ _ => true
    | _ => false)

/-- The texts an execution submitted as work-item comments, in order. -/
def submittedTexts {σ α : Type} (e : Exec σ α) : List String :=
  e.calls.filterMap (fun c =>
    match c with
    | .CreateComment _ _ _ comment => comment.Text
    | _ => none)

/-- What the host answers when the texts are submitted one after another from state `h`:
the error of each submission, in order. -/
def submitAnswers {σ : Type} (g : Client σ) (repo : Repo) (workItemID : Int) :
    σ → List String → List (Option GoError)
  | _, [] => []
  | h, t :: rest =>
    (CreateComment.submit g h repo workItemID t).1 ::
      submitAnswers g repo workItemID (CreateComment.submit g h repo workItemID t).2 rest

/-- The rendering `blackfriday.Run` gives a single paragraph of plain letters: the text
inside `<p>` and `</p>`, followed by a newline. -/
def renderParagraph (text : String) : String :=
  "<p>" ++ text ++ "</p>\n"

/-- A host whose pull request is linked to the one work item `42` and that accepts every
comment. -/
def oneWorkItemHost : Client Unit :=
  fixedHost { pull := (some { WorkItemRefs := [some { ID := some "42" }] }, none) }

/-- A host whose pull request is linked to the work items `42` and `43`. -/
def twoWorkItemsHost : Client Unit :=
  fixedHost
    { pull := (some { WorkItemRefs := [some { ID := some "42" }, some { ID := some "43" }] },
        none) }

/-- A host whose pull request is linked to the one work item `42` and that rejects every
comment. -/
def rejectingCommentsHost : Client Unit :=
  fixedHost
    { pull := (some { WorkItemRefs := [some { ID := some "42" }] }, none),
      comment := (none, some (.transport "500 Internal Server Error")) }

/-- A comment of 65536 letters `a`: as long as a single comment may be. -/
def longestSingleComment : String := String.mk (List.replicate 65536 'a')

/-- A host whose change-set fetch fails and hands back an empty change set with the error. -/
def changesErrorHost : Client Unit :=
  fixedHost
    { pull := (some { LastMergeSourceCommit := some { CommitID := some "b60280bc" } }, none),
      changes := (some {}, some (.transport "500 Internal Server Error")) }

/-- A host whose change-set fetch fails and hands back no change set with the error. -/
def changesErrorNilHost : Client Unit :=
  fixedHost
    { pull := (some { LastMergeSourceCommit := some { CommitID := some "b60280bc" } }, none),
      changes := (none, some (.transport "500 Internal Server Error")) }

/-- A host whose pull-request fetch fails while its change-set fetch answers with one added
file. -/
def pullErrorHost : Client Unit :=
  fixedHost
    { pull := (none, some (.transport "500 Internal Server Error")),
      changes := (some { Changes := [some
        { ChangeType := some { addr := 0, val := "add" },
          Item := some { Path := some "file1.txt" } }] }, none) }

/-- A host that serves the change set of a commit page by page: its state is the list of
pages not yet served, and each change-set request is answered with the next page. -/
def pagedHost : Client (List GitCommitChanges) :=
  { GetWithRepo := fun pages _ _ _ _ _ =>
      ((some { LastMergeSourceCommit := some { CommitID := some "b60280bc" } }, none), pages),
    GetChanges := fun pages _ _ _ _ =>
      match pages with
      | [] => ((some {}, none), [])
      | page :: rest => ((some page, none), rest),
    CreateStatus := fun pages _ _ _ _ _ => ((none, none), pages),
    Merge := fun pages _ _ _ _ _ _ _ => ((none, none), pages),
    CreateComment := fun pages _ _ _ _ => ((none, none), pages) }

/-- A change that adds the file at `path`. -/
def addedFile (addr : Nat) (path : String) : Option GitChange :=
  some { ChangeType := some { addr := addr, val := VersionControlChangeType.Add.String },
         Item := some { Path := some path } }

/-- A change set of two pages: `file1.txt` on the first, `file2.txt` on the second. -/
def twoPages : List GitCommitChanges :=
  [{ Changes := [addedFile 0 "file1.txt"] }, { Changes := [addedFile 1 "file2.txt"] }]

/-- The host of `TestAzureDevopsClient_GetModifiedFiles`: one change set that adds
`file1.txt` and `file2.txt`. -/
def twoFilesHost : Client Unit :=
  fixedHost
    { pull := (some { LastMergeSourceCommit :=
                        some { CommitID := some "b60280bc6e62e2f880f1b63c1e24987664d3bda3" } },
        none),
      changes := (some { Changes := [addedFile 0 "file1.txt", addedFile 1 "file2.txt"] },
        none) }

/-- A host whose pull-request fetch fails; the pull request it hands back with the error has
a reviewer without a vote and no merge status. -/
def fetchErrorHost : Client Unit :=
  fixedHost
    { pull := (some { Reviewers := [some { Vote := none }], MergeStatus := none },
        some (.transport "404 Not Found")) }

/-- The answer to the pull-request fetch of `GetModifiedFiles` (line 81) and the host state
after it. -/
def GetModifiedFiles.pullResponse {σ : Type} (g : Client σ) (h : σ) (repo : Repo)
    (pull : PullRequest) : (Option GitPullRequest × Option GoError) × σ :=
  g.GetWithRepo h (SplitAzureDevopsRepoFullName repo.FullName).1
    (SplitAzureDevopsRepoFullName repo.FullName).2.1
    (SplitAzureDevopsRepoFullName repo.FullName).2.2 pull.Num { IncludeWorkItemRefs := true }

/-- The `commitID` of `GetModifiedFiles` (line 83): the last merge source commit of the
fetched pull request. -/
def GetModifiedFiles.commitID {σ : Type} (g : Client σ) (h : σ) (repo : Repo)
    (pull : PullRequest) : String :=
  GitCommitRef.GetCommitID
    (GitPullRequest.GetLastMergeSourceCommit (GetModifiedFiles.pullResponse g h repo pull).1.1)

/-- The answer to the change-set fetch of `GetModifiedFiles` (line 85) and the host state
after it. -/
def GetModifiedFiles.changesResponse {σ : Type} (g : Client σ) (h : σ) (repo : Repo)
    (pull : PullRequest) : (Option GitCommitChanges × Option GoError) × σ :=
  g.GetChanges (GetModifiedFiles.pullResponse g h repo pull).2
    (SplitAzureDevopsRepoFullName repo.FullName).1
    (SplitAzureDevopsRepoFullName repo.FullName).2.1
    (SplitAzureDevopsRepoFullName repo.FullName).2.2 (GetModifiedFiles.commitID g h repo pull)

/-! ## Webhook request validator -/

/-- Modelled from the spec: the inbound webhook request as the validator sees it; the type
`http.Request` and the validator are missing, only the validator's tests are present.
`basicAuth` is the user and password of the `Authorization: Basic` header when the request
has one, `contentType` the value of its `Content-Type` header (empty when absent), `body`
the bytes of its body. -/
structure WebhookRequest where
  basicAuth : Option (String × String) := none
  contentType : String := ""
  body : String := ""
  deriving DecidableEq, Repr

/-- Modelled from the spec: the content types the validator accepts, whose code is missing:
`application/json`, optionally with parameters. -/
def acceptsContentType (ct : String) : Bool :=
  ct = "application/json" || "application/json;".data.isPrefixOf ct.data

/-- Modelled from the spec: whether credential checking is on, in the missing validator: a
credential pair is provided and non-empty (a nil or empty pair disables checking). -/
def credentialsConfigured (user pass : String) : Bool :=
  user ≠ "" && pass ≠ ""

/-- Modelled from the spec: the error of a failed authentication, raised by the missing
validator; the text is the one `TestAzureDevopsValidate_WithBasicAuthErr` expects. -/
def authenticationError : GoError :=
  .plain "ValidatePayload authentication failed"

/-- Modelled from the spec: the error for a content type that is not accepted, raised by the
missing validator; the text embeds the literal value received between double quotes, as
`TestAzureDevopsValidate_WithoutSecretInvalidContentType` expects. -/
def unsupportedContentTypeError (ct : String) : GoError :=
  .plain ("webhook request has unsupported Content-Type \"" ++ ct ++ "\"")

/-- Modelled from the spec: `DefaultAzureDevopsRequestValidator.Validate`, whose file is
missing.  With credentials configured the request must carry Basic authentication equal to
the expected pair, byte for byte, or authentication fails; then only an accepted content type
passes; on success the payload is the request body, unmodified. -/
def Validate (r : WebhookRequest) (user pass : String) : Option String × Option GoError :=
  if credentialsConfigured user pass ∧ r.basicAuth ≠ some (user, pass) then
    (none, some authenticationError)
  else if acceptsContentType r.contentType then
    (some r.body, none)
  else
    (none, some (unsupportedContentTypeError r.contentType))

/-- A host that answers the merge call with the response of `TestPullRequestsService_Merge`:
a completed pull request that carries no `mergeStatus`. -/
def noMergeStatusHost : Client Unit :=
  fixedHost
    { merge := (some
        { AutoCompleteSetBy := some {
            ID := some "54d125f7-69f7-4191-904f-c5b96b6261c8",
            ImageURL := some
              ("https://dev.azure.com/fabrikam/DefaultCollection/_api/_common/" ++
                "identityImage?id=54d125f7-69f7-4191-904f-c5b96b6261c8") },
          CompletionOptions := some {
            BypassPolicy := some false,
            BypassReason := some "",
            DeleteSourceBranch := some false,
            MergeCommitMessage := some "TEST MERGE COMMIT MESSAGE",
            MergeStrategy := some "noFastForward",
            SquashMerge := some false,
            TransitionWorkItems := some true,
            TriggeredByAutoComplete := some false },
          MergeStatus := none }, none) }

/-- A host whose pull request is linked to no work item. -/
def noWorkItemHost : Client Unit :=
  fixedHost { pull := (some { WorkItemRefs := [] }, none) }

/-! ## Theorems -/

/-! ### Shared lemmas -/

/-- A pointer to an existing variable is never equal to the address of a variable allocated
above it. -/
theorem ptrEq_fresh {α : Type} (p : Option (Ref α)) (next : Nat) (v : α)
    (hp : ∀ r, p = some r → r.addr < next) : ptrEq p (some ⟨next, v⟩) = false := by
  cases p with
  | none => rfl
  | some r =>
    have hlt := hp r rfl
    simp only [ptrEq, beq_eq_false_iff_ne, ne_eq]
    omega

/-- An upper bound of a list is at least each of its members. -/
theorem le_foldr_max (l : List Nat) (a : Nat) (ha : a ∈ l) : a ≤ l.foldr max 0 := by
  induction l with
  | nil => cases ha
  | cons x xs ih =>
    simp only [List.foldr_cons]
    rcases List.mem_cons.mp ha with rfl | hmem
    · exact le_max_left _ _
    · exact le_trans (ih hmem) (le_max_right _ _)

/-- Every `ChangeType` pointer of a change list lies below the fresh address. -/
theorem addr_lt_freshAddr (changes : List (Option GitChange)) (ch : GitChange)
    (r : Ref String) (hmem : some ch ∈ changes) (hr : ch.ChangeType = some r) :
    r.addr < freshAddr changes := by
  have hin : r.addr ∈ usedAddrs changes := by
    unfold usedAddrs
    rw [List.mem_filterMap]
    exact ⟨some ch, hmem, by simp [hr]⟩
  have hle := le_foldr_max _ _ hin
  unfold freshAddr
  omega

/-- The loop of `GetModifiedFiles` appends exactly the item path of each change: the rename
test compares the change's pointer with the address of a new local and never succeeds. -/
theorem GetModifiedFiles_loop_eq (changes : List (Option GitChange)) :
    ∀ (next : Nat) (files : List String),
      (∀ ch r, some ch ∈ changes → ch.ChangeType = some r → r.addr < next) →
      GetModifiedFiles.loop next changes files =
        if changes.all Option.isSome
        then .returned (files ++ changes.map (fun c => GitItem.GetPath (GitChange.GetItem c)))
        else .nilDeref := by
  induction changes with
  | nil => intro next files _; simp [GetModifiedFiles.loop]
  | cons c rest ih =>
    intro next files hlt
    cases c with
    | none => simp [GetModifiedFiles.loop]
    | some ch =>
      have hfalse : ptrEq ch.ChangeType
          (some ⟨next, VersionControlChangeType.Rename.String⟩) = false :=
        ptrEq_fresh _ _ _ (fun r hr => hlt ch r (List.mem_cons_self _ _) hr)
      have hrest : ∀ ch' r, some ch' ∈ rest → ch'.ChangeType = some r → r.addr < next + 1 :=
        fun ch' r hm hr => Nat.lt_succ_of_lt (hlt ch' r (List.mem_cons_of_mem _ hm) hr)
      simp only [GetModifiedFiles.loop, hfalse, Bool.false_eq_true, if_false]
      rw [ih (next + 1) _ hrest]
      simp


/-- The reviewer loop answers `true` exactly when every non-nil reviewer voted
`VoteApproved`. -/
theorem PullIsApproved_loop_true_iff (rs : List (Option IdentityRefWithVote)) :
    PullIsApproved.loop rs = .returned true ↔
      ∀ r, some r ∈ rs → r.Vote = some VoteApproved := by
  induction rs with
  | nil => simp [PullIsApproved.loop]
  | cons x rest ih =>
    cases x with
    | none => simp [PullIsApproved.loop, ih]
    | some review =>
      cases hv : review.Vote with
      | none =>
        simp only [PullIsApproved.loop, hv]
        constructor
        · intro hcontra
          cases hcontra
        · intro hall
          have hvote := hall review (List.mem_cons_self _ _)
          rw [hv] at hvote
          cases hvote
      | some vote =>
        by_cases hvote : vote = VoteApproved
        · subst hvote
          simp only [PullIsApproved.loop, hv, ne_eq, not_true_eq_false, if_false, ih,
            List.mem_cons, Option.some.injEq]
          constructor
          · rintro hall r (rfl | hmem)
            · exact hv
            · exact hall r hmem
          · exact fun hall r hmem => hall r (Or.inr hmem)
        · simp only [PullIsApproved.loop, hv, ne_eq, hvote, not_false_eq_true, if_true]
          constructor
          · intro hcontra
            cases hcontra
          · intro hall
            have hvote' := hall review (List.mem_cons_self _ _)
            rw [hv] at hvote'
            exact absurd (Option.some.inj hvote') hvote

/-- When every non-nil reviewer carries a vote, the reviewer loop returns, and it answers
whether all of them voted `VoteApproved`. -/
theorem PullIsApproved_loop_total (rs : List (Option IdentityRefWithVote))
    (hv : ∀ r, some r ∈ rs → r.Vote ≠ none) :
    PullIsApproved.loop rs = .returned true ∨ PullIsApproved.loop rs = .returned false := by
  induction rs with
  | nil => exact Or.inl rfl
  | cons x rest ih =>
    have hrest : ∀ r, some r ∈ rest → r.Vote ≠ none :=
      fun r hm => hv r (List.mem_cons_of_mem _ hm)
    cases x with
    | none => simpa [PullIsApproved.loop] using ih hrest
    | some review =>
      cases hvote : review.Vote with
      | none => exact absurd hvote (hv review (List.mem_cons_self _ _))
      | some vote =>
        by_cases hva : vote = VoteApproved
        · simpa [PullIsApproved.loop, hvote, hva] using ih hrest
        · exact Or.inr (by simp [PullIsApproved.loop, hvote, hva])

/-- After a successful fetch, `PullIsApproved` returns what the reviewer loop answers, with a
nil error. -/
theorem PullIsApproved_out_eq {σ : Type} (g : Client σ) (h : σ) (repo : Repo)
    (pull : PullRequest) (p : GitPullRequest)
    (hfetch : (GetPullRequest g h repo pull.Num).out = .returned (some p, none)) :
    (PullIsApproved g h repo pull).out =
      match PullIsApproved.loop p.Reviewers with
      | .returned b => .returned (b, none)
      | .nilDeref => .nilDeref := by
  unfold GetPullRequest at hfetch
  unfold PullIsApproved
  rcases hs : SplitAzureDevopsRepoFullName repo.FullName with ⟨owner, project, repoName⟩
  rw [hs] at hfetch
  rcases hr : g.GetWithRepo h owner project repoName pull.Num { IncludeWorkItemRefs := true }
    with ⟨⟨adPull, err⟩, h1⟩
  simp only [hr, Outcome.returned.injEq, Prod.mk.injEq] at hfetch
  obtain ⟨rfl, rfl⟩ := hfetch
  simp only [hr]
  cases PullIsApproved.loop p.Reviewers <;> rfl

/-! ### Claims -/

/-- C1: at a host whose change set for the commit is a single rename of `old/main.tf` to
`new/main.tf`, `GetModifiedFiles` returns the item path alone: the source path of the rename
is not in the returned list, although the change type is `Rename.String()`. -/
theorem GetModifiedFiles_drops_rename_source :
    (GetModifiedFiles renameHost () testRepo { Num := 1 }).out =
        .returned (["new/main.tf"], none) ∧
      VersionControlChangeType.Rename.String = "rename" := by
  decide

/-- C2: whenever the pull-request fetch succeeds, `PullIsApproved` returns `true` (with a nil
error) if and only if every non-nil reviewer of the fetched pull request has a vote equal to
`VoteApproved`; a reviewer voting `ApprovedWithSuggestions`, `None`, `WaitingForAuthor` or
`Rejected` keeps it from returning `true`, and when every non-nil reviewer carries a vote the
result is then `false` with a nil error; an empty reviewer list gives `true`. -/
theorem PullIsApproved_iff_all_approved {σ : Type} (g : Client σ) (h : σ) (repo : Repo)
    (pull : PullRequest) (p : GitPullRequest)
    (hfetch : (GetPullRequest g h repo pull.Num).out = .returned (some p, none)) :
    ((PullIsApproved g h repo pull).out = .returned (true, none) ↔
        ∀ r, some r ∈ p.Reviewers → r.Vote = some VoteApproved) ∧
      ((∀ r, some r ∈ p.Reviewers → r.Vote ≠ none) →
        ((PullIsApproved g h repo pull).out = .returned (false, none) ↔
          ∃ r, some r ∈ p.Reviewers ∧ r.Vote ≠ some VoteApproved)) ∧
      (∀ r v, some r ∈ p.Reviewers → r.Vote = some v →
        v ∈ [VoteApprovedWithSuggestions, VoteNone, VoteWaitingForAuthor, VoteRejected] →
        (∀ r', some r' ∈ p.Reviewers → r'.Vote ≠ none) →
        (PullIsApproved g h repo pull).out = .returned (false, none)) ∧
      (p.Reviewers = [] → (PullIsApproved g h repo pull).out = .returned (true, none)) := by
  have hout := PullIsApproved_out_eq g h repo pull p hfetch
  have htrue : (PullIsApproved g h repo pull).out = .returned (true, none) ↔
      ∀ r, some r ∈ p.Reviewers → r.Vote = some VoteApproved := by
    rw [hout, ← PullIsApproved_loop_true_iff]
    cases hl : PullIsApproved.loop p.Reviewers with
    | returned b => cases b <;> simp
    | nilDeref => simp
  have hfalse : (∀ r, some r ∈ p.Reviewers → r.Vote ≠ none) →
      ((PullIsApproved g h repo pull).out = .returned (false, none) ↔
        ∃ r, some r ∈ p.Reviewers ∧ r.Vote ≠ some VoteApproved) := by
    intro hv
    have hiff := PullIsApproved_loop_true_iff p.Reviewers
    rcases PullIsApproved_loop_total p.Reviewers hv with ht | hf
    · have hall := hiff.mp ht
      rw [hout, ht]
      simp only [Outcome.returned.injEq, Prod.mk.injEq, Bool.true_eq_false, and_true,
        false_iff, not_exists, not_and, not_not]
      exact hall
    · rw [hout, hf]
      simp only [true_iff]
      by_contra hne
      push_neg at hne
      have ht := hiff.mpr hne
      rw [hf] at ht
      cases ht
  refine ⟨htrue, hfalse, ?_, ?_⟩
  · intro r v hmem hvote hin hv
    refine (hfalse hv).mpr ⟨r, hmem, ?_⟩
    rw [hvote]
    intro heq
    have hveq : v = VoteApproved := Option.some.inj heq
    subst hveq
    revert hin
    decide
  · intro hnil
    exact htrue.mpr (by simp [hnil])


/-- C2 witness: at a host with an approving, a nil and an approved-with-suggestions reviewer
the fetch succeeds and the statement of C2 holds. -/
theorem PullIsApproved_iff_all_approved_witness :
    (GetPullRequest suggestionsHost () testRepo 1).out =
        .returned (some { Reviewers :=
          [some { Vote := some VoteApproved }, none,
            some { Vote := some VoteApprovedWithSuggestions }] }, none) ∧
      (PullIsApproved suggestionsHost () testRepo { Num := 1 }).out =
        .returned (false, none) :=
  ⟨by decide,
    (PullIsApproved_iff_all_approved suggestionsHost () testRepo { Num := 1 }
      { Reviewers := [some { Vote := some VoteApproved }, none,
        some { Vote := some VoteApprovedWithSuggestions }] }
      (by decide)).2.2.1 { Vote := some VoteApprovedWithSuggestions }
      VoteApprovedWithSuggestions (by decide) rfl (by decide)
      (by
        intro r hmem
        simp only [List.mem_cons, Option.some.injEq, List.not_mem_nil, or_false] at hmem
        rcases hmem with rfl | hmem | rfl
        · simp
        · cases hmem
        · simp)⟩

/-- After a successful fetch that carries a merge status, `PullIsMergeable` returns `false`
for the two denied statuses and `true` for every other one, with a nil error. -/
theorem PullIsMergeable_out_eq {σ : Type} (g : Client σ) (h : σ) (repo : Repo)
    (pull : PullRequest) (p : GitPullRequest) (s : String)
    (hfetch : (GetPullRequest g h repo pull.Num).out = .returned (some p, none))
    (hs : p.MergeStatus = some s) :
    (PullIsMergeable g h repo pull).out =
      if s = PullRequestMergeStatus.MergeConflicts.String ∨
          s = PullRequestMergeStatus.MergeRejectedByPolicy.String
      then .returned (false, none) else .returned (true, none) := by
  unfold GetPullRequest at hfetch
  unfold PullIsMergeable
  rcases hsp : SplitAzureDevopsRepoFullName repo.FullName with ⟨owner, project, repoName⟩
  rw [hsp] at hfetch
  rcases hr : g.GetWithRepo h owner project repoName pull.Num { IncludeWorkItemRefs := true }
    with ⟨⟨adPull, err⟩, h1⟩
  simp only [hr, Outcome.returned.injEq, Prod.mk.injEq] at hfetch
  obtain ⟨rfl, rfl⟩ := hfetch
  simp only [hr, hs]
  by_cases hc : s = PullRequestMergeStatus.MergeConflicts.String
  · simp [hc]
  · by_cases hp : s = PullRequestMergeStatus.MergeRejectedByPolicy.String
    · simp [hp]
    · simp [hc, hp]

/-- C3: whenever the pull-request fetch succeeds with merge status string `s`,
`PullIsMergeable` returns `false` if and only if `s` is `MergeConflicts.String()` or
`MergeRejectedByPolicy.String()`, and `true` for every other string, among them those of
`MergeFailure`, `MergeNotSet`, `MergeQueued` and `MergeSucceeded`; the error is nil in both
cases. -/
theorem PullIsMergeable_false_iff_denied {σ : Type} (g : Client σ) (h : σ) (repo : Repo)
    (pull : PullRequest) (p : GitPullRequest) (s : String)
    (hfetch : (GetPullRequest g h repo pull.Num).out = .returned (some p, none))
    (hs : p.MergeStatus = some s) :
    ((PullIsMergeable g h repo pull).out = .returned (false, none) ↔
        (s = PullRequestMergeStatus.MergeConflicts.String ∨
          s = PullRequestMergeStatus.MergeRejectedByPolicy.String)) ∧
      ((PullIsMergeable g h repo pull).out = .returned (true, none) ↔
        ¬ (s = PullRequestMergeStatus.MergeConflicts.String ∨
          s = PullRequestMergeStatus.MergeRejectedByPolicy.String)) ∧
      (∀ m ∈ [PullRequestMergeStatus.MergeFailure, PullRequestMergeStatus.MergeNotSet,
          PullRequestMergeStatus.MergeQueued, PullRequestMergeStatus.MergeSucceeded],
        s = m.String → (PullIsMergeable g h repo pull).out = .returned (true, none)) := by
  have hout := PullIsMergeable_out_eq g h repo pull p s hfetch hs
  have htrue : (PullIsMergeable g h repo pull).out = .returned (true, none) ↔
      ¬ (s = PullRequestMergeStatus.MergeConflicts.String ∨
        s = PullRequestMergeStatus.MergeRejectedByPolicy.String) := by
    rw [hout]
    split_ifs with hd
    · simp [hd]
    · simp [hd]
  refine ⟨?_, htrue, ?_⟩
  · rw [hout]
    split_ifs with hd
    · simp [hd]
    · simp [hd]
  · intro m hm hsm
    have hnames : ∀ m ∈ [PullRequestMergeStatus.MergeFailure,
        PullRequestMergeStatus.MergeNotSet, PullRequestMergeStatus.MergeQueued,
        PullRequestMergeStatus.MergeSucceeded],
        ¬ (m.String = PullRequestMergeStatus.MergeConflicts.String ∨
          m.String = PullRequestMergeStatus.MergeRejectedByPolicy.String) := by
      decide
    apply htrue.mpr
    rw [hsm]
    exact hnames m hm

/-- C3 witness: at a host whose pull request has merge conflicts the fetch succeeds with
that status and `PullIsMergeable` returns `false` with a nil error. -/
theorem PullIsMergeable_false_iff_denied_witness :
    (GetPullRequest conflictsHost () testRepo 1).out =
        .returned (some { MergeStatus := some "conflicts" }, none) ∧
      (PullIsMergeable conflictsHost () testRepo { Num := 1 }).out =
        .returned (false, none) :=
  ⟨by decide,
    (PullIsMergeable_false_iff_denied conflictsHost () testRepo { Num := 1 }
      { MergeStatus := some "conflicts" } "conflicts" (by decide) rfl).1.mpr
      (Or.inl (by decide))⟩

/-- What `UpdateStatus` does, in one equation: it posts the status object it built, once, for
the head commit in the repository the full name splits into, and returns the error of that
post. -/
theorem UpdateStatus_exec {σ : Type} (g : Client σ) (h : σ) (repo : Repo) (pull : PullRequest)
    (state : CommitStatus) (src description url : String) :
    (UpdateStatus g h repo pull state src description url).calls =
        [Call.CreateStatus (SplitAzureDevopsRepoFullName repo.FullName).1
          (SplitAzureDevopsRepoFullName repo.FullName).2.1
          (SplitAzureDevopsRepoFullName repo.FullName).2.2 pull.HeadCommit
          (UpdateStatus.status state src description url)] ∧
      (UpdateStatus g h repo pull state src description url).out =
        .returned (g.CreateStatus h (SplitAzureDevopsRepoFullName repo.FullName).1
          (SplitAzureDevopsRepoFullName repo.FullName).2.1
          (SplitAzureDevopsRepoFullName repo.FullName).2.2 pull.HeadCommit
          (UpdateStatus.status state src description url)).1.2 ∧
      (UpdateStatus g h repo pull state src description url).host =
        (g.CreateStatus h (SplitAzureDevopsRepoFullName repo.FullName).1
          (SplitAzureDevopsRepoFullName repo.FullName).2.1
          (SplitAzureDevopsRepoFullName repo.FullName).2.2 pull.HeadCommit
          (UpdateStatus.status state src description url)).2 := by
  unfold UpdateStatus
  rcases hsp : SplitAzureDevopsRepoFullName repo.FullName with ⟨owner, project, repoName⟩
  exact ⟨rfl, rfl, rfl⟩

/-- The status objects `UpdateStatus` posts: the one it built. -/
theorem UpdateStatus_postedStatuses {σ : Type} (g : Client σ) (h : σ) (repo : Repo)
    (pull : PullRequest) (state : CommitStatus) (src description url : String) :
    postedStatuses (UpdateStatus g h repo pull state src description url) =
      [UpdateStatus.status state src description url] := by
  unfold postedStatuses
  rw [(UpdateStatus_exec g h repo pull state src description url).1]
  rfl

/-- The state string of the status object `UpdateStatus` builds is the one its switch
chose. -/
theorem UpdateStatus_status_State (state : CommitStatus) (src description url : String) :
    (UpdateStatus.status state src description url).State =
      some (UpdateStatus.adState state) := by
  unfold UpdateStatus.status
  by_cases hu : url = ""
  · simp [hu]
  · simp [hu]

/-- C4: `UpdateStatus` posts the host state string `pending` for `PendingCommitStatus`,
`succeeded` for `SuccessCommitStatus` and `failed` for `FailedCommitStatus`, and the three
host strings are pairwise distinct. -/
theorem UpdateStatus_state_strings {σ : Type} (g : Client σ) (h : σ) (repo : Repo)
    (pull : PullRequest) (src description url : String) :
    (postedStatuses (UpdateStatus g h repo pull PendingCommitStatus src description url)).map
        (fun st => st.State) = [some "pending"] ∧
      (postedStatuses (UpdateStatus g h repo pull SuccessCommitStatus src description url)).map
        (fun st => st.State) = [some "succeeded"] ∧
      (postedStatuses (UpdateStatus g h repo pull FailedCommitStatus src description url)).map
        (fun st => st.State) = [some "failed"] ∧
      UpdateStatus.adState PendingCommitStatus ≠ UpdateStatus.adState SuccessCommitStatus ∧
      UpdateStatus.adState PendingCommitStatus ≠ UpdateStatus.adState FailedCommitStatus ∧
      UpdateStatus.adState SuccessCommitStatus ≠ UpdateStatus.adState FailedCommitStatus := by
  simp only [UpdateStatus_postedStatuses, List.map_cons, List.map_nil,
    UpdateStatus_status_State]
  decide

/-- C5: for every commit status other than `Pending`, `Success` and `Failed`, the state
string `UpdateStatus` posts is `GitError.String()`, and no posted status carries the
succeeded string. -/
theorem UpdateStatus_unmapped_is_error {σ : Type} (g : Client σ) (h : σ) (repo : Repo)
    (pull : PullRequest) (state : CommitStatus) (src description url : String)
    (hp : state ≠ PendingCommitStatus) (hs : state ≠ SuccessCommitStatus)
    (hf : state ≠ FailedCommitStatus) :
    (postedStatuses (UpdateStatus g h repo pull state src description url)).map
        (fun st => st.State) = [some GitStatusState.GitError.String] ∧
      ∀ st ∈ postedStatuses (UpdateStatus g h repo pull state src description url),
        st.State ≠ some GitStatusState.GitSucceeded.String := by
  have hstate : UpdateStatus.adState state = GitStatusState.GitError.String := by
    simp [UpdateStatus.adState, hp, hs, hf]
  simp only [UpdateStatus_postedStatuses, List.map_cons, List.map_nil,
    UpdateStatus_status_State, hstate, List.mem_singleton, forall_eq, true_and]
  decide

/-- C5 witness: the out-of-range status `3` is posted as `error`. -/
theorem UpdateStatus_unmapped_is_error_witness :
    ((3 : CommitStatus) ≠ PendingCommitStatus ∧ (3 : CommitStatus) ≠ SuccessCommitStatus ∧
        (3 : CommitStatus) ≠ FailedCommitStatus) ∧
      (postedStatuses (UpdateStatus (fixedHost {}) () testRepo { HeadCommit := "sha" } 3
        "src" "description" "https://google.com")).map (fun st => st.State) = [some "error"] :=
  ⟨by decide,
    (UpdateStatus_unmapped_is_error (fixedHost {}) () testRepo { HeadCommit := "sha" } 3
      "src" "description" "https://google.com" (by decide) (by decide) (by decide)).1⟩

/-- C6: the status object `UpdateStatus` posts has `TargetURL` unset exactly when the `url`
argument is the empty string, and set to `url` otherwise. -/
theorem UpdateStatus_targetURL {σ : Type} (g : Client σ) (h : σ) (repo : Repo)
    (pull : PullRequest) (state : CommitStatus) (src description url : String) :
    ∃ st, postedStatuses (UpdateStatus g h repo pull state src description url) = [st] ∧
      (st.TargetURL = none ↔ url = "") ∧
      st.TargetURL = if url = "" then none else some url := by
  refine ⟨UpdateStatus.status state src description url,
    UpdateStatus_postedStatuses g h repo pull state src description url, ?_, ?_⟩
  · unfold UpdateStatus.status
    by_cases hu : url = ""
    · simp [hu]
    · simp [hu]
  · unfold UpdateStatus.status
    by_cases hu : url = ""
    · simp [hu]
    · simp [hu]

/-- C7: for every input `UpdateStatus` issues exactly one outbound call, a status post for
commit `pull.HeadCommit` in the repository obtained by splitting `repo.FullName`; the posted
object has context genre `Atlantis Bot`, context name `src` and description `description`;
and `UpdateStatus` returns exactly the error that post returned. -/
theorem UpdateStatus_single_post {σ : Type} (g : Client σ) (h : σ) (repo : Repo)
    (pull : PullRequest) (state : CommitStatus) (src description url : String) :
    ∃ st,
      (UpdateStatus g h repo pull state src description url).calls =
          [Call.CreateStatus (SplitAzureDevopsRepoFullName repo.FullName).1
            (SplitAzureDevopsRepoFullName repo.FullName).2.1
            (SplitAzureDevopsRepoFullName repo.FullName).2.2 pull.HeadCommit st] ∧
        st.Context = some { Name := some src, Genre := some "Atlantis Bot" } ∧
        st.Description = some description ∧
        (UpdateStatus g h repo pull state src description url).out =
          .returned (g.CreateStatus h (SplitAzureDevopsRepoFullName repo.FullName).1
            (SplitAzureDevopsRepoFullName repo.FullName).2.1
            (SplitAzureDevopsRepoFullName repo.FullName).2.2 pull.HeadCommit st).1.2 := by
  obtain ⟨hcalls, hout, _⟩ := UpdateStatus_exec g h repo pull state src description url
  refine ⟨UpdateStatus.status state src description url, hcalls, ?_, ?_, hout⟩
  · unfold UpdateStatus.status
    by_cases hu : url = ""
    · simp [hu]
    · simp [hu]
  · unfold UpdateStatus.status
    by_cases hu : url = ""
    · simp [hu]
    · simp [hu]

/-- Method `MergePull` issues its one merge call whatever the host answers, and leaves the host in
the state that call left it in. -/
theorem MergePull_calls_host {σ : Type} (g : Client σ) (h : σ) (pull : PullRequest) :
    (MergePull g h pull).calls = [MergePull.request pull] ∧
      (MergePull g h pull).host = (MergePull.response g h pull).2 := by
  unfold MergePull
  rcases MergePull.response g h pull with ⟨⟨mergeResult, err⟩, h1⟩
  cases err with
  | some e => exact ⟨rfl, rfl⟩
  | none =>
    cases mergeResult with
    | none => exact ⟨rfl, rfl⟩
    | some r =>
      cases hm : r.MergeStatus with
      | none => simp only [hm, and_self]
      | some s =>
        simp only [hm]
        split_ifs <;> simp only [and_self]

/-- What `MergePull` returns, by cases on the answer to its merge call. -/
theorem MergePull_out_eq {σ : Type} (g : Client σ) (h : σ) (pull : PullRequest) :
    (MergePull g h pull).out =
      match (MergePull.response g h pull).1.2 with
      | some e => .returned (some (.wrapped e "merging pull request"))
      | none =>
        match (MergePull.response g h pull).1.1 with
        | none => .nilDeref
        | some r =>
          match r.MergeStatus with
          | none => .nilDeref
          | some s =>
            if s = PullRequestMergeStatus.MergeSucceeded.String then .returned none
            else .returned (some (.plain ("could not merge pull request: " ++
              r.MergeFailureMessage.getD ""))) := by
  unfold MergePull
  rcases MergePull.response g h pull with ⟨⟨mergeResult, err⟩, h1⟩
  cases err with
  | some e => rfl
  | none =>
    cases mergeResult with
    | none => rfl
    | some r =>
      cases hm : r.MergeStatus with
      | none => simp only [hm]
      | some s =>
        simp only [hm]
        by_cases hs : s = PullRequestMergeStatus.MergeSucceeded.String
        · simp [hs]
        · simp [hs, GitPullRequest.GetMergeFailureMessage]

/-- C8: when the merge call returns without a transport error and the returned merge status
is not the succeeded string, `MergePull` returns an error whose message is
`could not merge pull request: ` followed by the host-supplied merge failure message. -/
theorem MergePull_failure_message {σ : Type} (g : Client σ) (h : σ) (pull : PullRequest)
    (r : GitPullRequest) (s : String)
    (hresp : (MergePull.response g h pull).1 = (some r, none))
    (hs : r.MergeStatus = some s)
    (hne : s ≠ PullRequestMergeStatus.MergeSucceeded.String) :
    ∃ e, (MergePull g h pull).out = .returned (some e) ∧
      e.Error = "could not merge pull request: " ++ r.MergeFailureMessage.getD "" := by
  refine ⟨.plain ("could not merge pull request: " ++ r.MergeFailureMessage.getD ""), ?_, rfl⟩
  rw [MergePull_out_eq, hresp]
  simp only [hs, hne, if_false]

/-- C8 witness: the host declines the merge with conflicts and the failure message
`Merge conflict in main.tf`; `MergePull` returns the error
`could not merge pull request: Merge conflict in main.tf`. -/
theorem MergePull_failure_message_witness :
    ((MergePull.response declinedMergeHost () { Num := 22, BaseRepo := testRepo }).1 =
        (some { MergeStatus := some "conflicts",
                MergeFailureMessage := some "Merge conflict in main.tf" }, none) ∧
      "conflicts" ≠ PullRequestMergeStatus.MergeSucceeded.String) ∧
    ∃ e, (MergePull declinedMergeHost () { Num := 22, BaseRepo := testRepo }).out =
        .returned (some e) ∧
      e.Error = "could not merge pull request: " ++ "Merge conflict in main.tf" :=
  ⟨⟨by decide, by decide⟩,
    MergePull_failure_message declinedMergeHost () { Num := 22, BaseRepo := testRepo }
      { MergeStatus := some "conflicts",
        MergeFailureMessage := some "Merge conflict in main.tf" }
      "conflicts" (by decide) rfl (by decide)⟩

/-- C9: `MergePull` returns nil if and only if its merge call returned no transport error and
a merge status equal to `MergeSucceeded.String()`; every invocation issues exactly one
outbound call, the merge call for `pull.Num` in the repository `pull.BaseRepo.FullName` splits
into, and leaves the host in the state that one call left it in (no retry). -/
theorem MergePull_nil_iff_succeeded {σ : Type} (g : Client σ) (h : σ) (pull : PullRequest) :
    ((MergePull g h pull).out = .returned none ↔
        ∃ r, (MergePull.response g h pull).1 = (some r, none) ∧
          r.MergeStatus = some PullRequestMergeStatus.MergeSucceeded.String) ∧
      (MergePull g h pull).calls =
        [Call.Merge (SplitAzureDevopsRepoFullName pull.BaseRepo.FullName).1
          (SplitAzureDevopsRepoFullName pull.BaseRepo.FullName).2.1
          (SplitAzureDevopsRepoFullName pull.BaseRepo.FullName).2.2 pull.Num
          MergePull.mergePull MergePull.completionOpts MergePull.id] ∧
      (MergePull g h pull).host =
        (g.Merge h (SplitAzureDevopsRepoFullName pull.BaseRepo.FullName).1
          (SplitAzureDevopsRepoFullName pull.BaseRepo.FullName).2.1
          (SplitAzureDevopsRepoFullName pull.BaseRepo.FullName).2.2 pull.Num
          MergePull.mergePull MergePull.completionOpts MergePull.id).2 := by
  obtain ⟨hcalls, hhost⟩ := MergePull_calls_host g h pull
  refine ⟨?_, ?_, ?_⟩
  · rw [MergePull_out_eq]
    rcases (MergePull.response g h pull).1 with ⟨mergeResult, err⟩
    cases err with
    | some e =>
      simp only
      constructor
      · intro hc
        cases hc
      · rintro ⟨r, hr, _⟩
        cases hr
    | none =>
      cases mergeResult with
      | none =>
        simp only
        constructor
        · intro hc
          cases hc
        · rintro ⟨r, hr, _⟩
          cases hr
      | some r =>
        cases hm : r.MergeStatus with
        | none =>
          simp only [hm]
          constructor
          · intro hc
            cases hc
          · rintro ⟨r', hr, hst⟩
            cases hr
            rw [hm] at hst
            cases hst
        | some s =>
          simp only [hm]
          by_cases hs : s = PullRequestMergeStatus.MergeSucceeded.String
          · simp only [hs, if_true, true_iff]
            exact ⟨r, rfl, by rw [hm, hs]⟩
          · simp only [hs, if_false]
            constructor
            · intro hc
              cases hc
            · rintro ⟨r', hr, hst⟩
              cases hr
              rw [hm] at hst
              exact absurd (Option.some.inj hst) hs
  · rw [hcalls]
    unfold MergePull.request
    rcases SplitAzureDevopsRepoFullName pull.BaseRepo.FullName with ⟨owner, project, repoName⟩
    rfl
  · rw [hhost]
    unfold MergePull.response
    rcases SplitAzureDevopsRepoFullName pull.BaseRepo.FullName with ⟨owner, project, repoName⟩
    rfl

/-- C10: when the host answers the merge call with `405 Method Not Allowed`, the error
`MergePull` returns is the client library's error wrapped as `merging pull request: ...`; it
contains the host's response text but not the text
`unable to merge merge request, it may not be in a mergeable state`. -/
theorem MergePull_transport_error_text :
    ∃ e, (MergePull notAllowedHost () { Num := 22, BaseRepo := testRepo }).out =
        .returned (some e) ∧
      e.Error = "merging pull request: 405 \x7bmessage: 405 Method Not Allowed\x7d" ∧
      stringsContains e.Error "405 \x7bmessage: 405 Method Not Allowed\x7d" = true ∧
      stringsContains e.Error
        "unable to merge merge request, it may not be in a mergeable state" = false :=
  ⟨.wrapped (.transport "405 \x7bmessage: 405 Method Not Allowed\x7d") "merging pull request",
    by decide, by decide, by decide, by decide⟩

/-! ### Lemmas on `SplitAzureDevopsRepoFullName` -/

/-- A list that contains `/` splits at its last `/`. -/
theorem exists_last_slash (l : List Char) (h : '/' ∈ l) :
    ∃ a c, l = a ++ '/' :: c ∧ '/' ∉ c := by
  have hr : '/' ∈ l.reverse := List.mem_reverse.mpr h
  obtain ⟨as, bs, hl, hnot⟩ := List.eq_append_cons_of_mem hr
  refine ⟨bs.reverse, as.reverse, ?_, ?_⟩
  · have hrev := congrArg List.reverse hl
    simpa using hrev
  · simpa using hnot

/-- A list that contains `/` splits at its first `/`. -/
theorem exists_first_slash (l : List Char) (h : '/' ∈ l) :
    ∃ a c, l = a ++ '/' :: c ∧ '/' ∉ a := by
  obtain ⟨as, bs, hl, hnot⟩ := List.eq_append_cons_of_mem h
  exact ⟨as, bs, hl, hnot⟩

/-- The first `/` of `a/c`, with no `/` in `a`, is at position `len(a)`. -/
theorem indexSlash_append (a c : List Char) (ha : '/' ∉ a) :
    indexSlash (String.mk (a ++ '/' :: c)) = (a.length : Int) := by
  have hidx : (a ++ '/' :: c).indexOf '/' = a.length := by
    rw [List.indexOf_append_of_not_mem ha, List.indexOf_cons_self, Nat.add_zero]
  unfold indexSlash
  simp only [hidx, List.length_append, List.length_cons]
  rw [if_pos (by omega)]

/-- The last `/` of `a/c`, with no `/` in `c`, is at position `len(a)`. -/
theorem lastIndexSlash_append (a c : List Char) (hc : '/' ∉ c) :
    lastIndexSlash (String.mk (a ++ '/' :: c)) = (a.length : Int) := by
  have hrev : (a ++ '/' :: c).reverse = c.reverse ++ '/' :: a.reverse := by simp
  have hidx : (a ++ '/' :: c).reverse.indexOf '/' = c.length := by
    rw [hrev, List.indexOf_append_of_not_mem (by simpa using hc), List.indexOf_cons_self,
      Nat.add_zero, List.length_reverse]
  unfold lastIndexSlash
  simp only [hidx, List.length_append, List.length_cons]
  rw [if_pos (by omega)]
  push_cast
  omega

/-- Without a `/` there is no last `/`. -/
theorem lastIndexSlash_of_not_mem (s : String) (h : '/' ∉ s.data) : lastIndexSlash s = -1 := by
  have hidx : s.data.reverse.indexOf '/' = s.data.length := by
    rw [← List.length_reverse s.data]
    exact List.indexOf_eq_length.mpr (by simpa using h)
  unfold lastIndexSlash
  rw [hidx, if_neg (Nat.lt_irrefl _)]

/-- The slice up to position `len(a)` of `a ++ c` is `a`. -/
theorem goSlice_head (a c : List Char) :
    goSlice (String.mk (a ++ c)) 0 (a.length : Int) = String.mk a := by
  simp [goSlice]

/-- The slice of `a/c` from just after the `/` to the end is `c`. -/
theorem goSlice_tail (a c : List Char) :
    goSlice (String.mk (a ++ '/' :: c)) ((a.length : Int) + 1)
      (((a ++ '/' :: c).length : Nat) : Int) = String.mk c := by
  have h1 : ((a.length : Int) + 1).toNat = a.length + 1 := by omega
  have h2 : ((((a ++ '/' :: c).length : Nat) : Int)).toNat = a.length + 1 + c.length := by
    simp only [List.length_append, List.length_cons, Int.toNat_ofNat]
    omega
  unfold goSlice
  rw [h1, h2]
  have hdrop : (a ++ '/' :: c).drop (a.length + 1) = c := by
    rw [show a ++ '/' :: c = (a ++ ['/']) ++ c by simp]
    exact List.drop_left' (by simp)
  simp [hdrop]

/-- The slice of `a/b/c` strictly between the two `/` is `b`. -/
theorem goSlice_middle (a b c : List Char) :
    goSlice (String.mk (a ++ '/' :: (b ++ '/' :: c))) ((a.length : Int) + 1)
      (((a ++ '/' :: b).length : Nat) : Int) = String.mk b := by
  have h1 : ((a.length : Int) + 1).toNat = a.length + 1 := by omega
  have h2 : ((((a ++ '/' :: b).length : Nat) : Int)).toNat = a.length + 1 + b.length := by
    simp only [List.length_append, List.length_cons, Int.toNat_ofNat]
    omega
  unfold goSlice
  rw [h1, h2]
  have hdrop : (a ++ '/' :: (b ++ '/' :: c)).drop (a.length + 1) = b ++ '/' :: c := by
    rw [show a ++ '/' :: (b ++ '/' :: c) = (a ++ ['/']) ++ (b ++ '/' :: c) by simp]
    exact List.drop_left' (by simp)
  simp [hdrop]

/-- A name `a/c` with no `/` in the non-empty `c`, and not exactly two `/` in all, splits into
owner `a`, no project, and repo `c`. -/
theorem Split_at_last_slash (a c : List Char) (hc : '/' ∉ c) (hne : c ≠ [])
    (hcount : a.count '/' ≠ 1) :
    SplitAzureDevopsRepoFullName (String.mk (a ++ '/' :: c)) =
      (String.mk a, "", String.mk c) := by
  have hlast := lastIndexSlash_append a c hc
  have hlen : 0 < c.length := List.length_pos.mpr hne
  have hcnt : countSlash (String.mk (a ++ '/' :: c)) ≠ 2 := by
    show ((List.count '/' (a ++ '/' :: c) : Nat) : Int) ≠ 2
    simp only [List.count_append, List.count_cons_self, List.count_eq_zero.mpr hc]
    omega
  have h1 : ¬ (lastIndexSlash (String.mk (a ++ '/' :: c)) = -1 ∨
      lastIndexSlash (String.mk (a ++ '/' :: c)) =
        (((String.mk (a ++ '/' :: c)).data.length : Nat) : Int) - 1) := by
    rw [hlast]
    simp only [List.length_append, List.length_cons]
    push_cast
    rintro (h | h) <;> first | exact h.elim | omega
  have h2 : ¬ (indexSlash (String.mk (a ++ '/' :: c)) ≠
      lastIndexSlash (String.mk (a ++ '/' :: c)) ∧
      countSlash (String.mk (a ++ '/' :: c)) = 2) := fun h => hcnt h.2
  unfold SplitAzureDevopsRepoFullName
  simp only [h1, h2, if_false]
  rw [hlast]
  have hhead := goSlice_head a ('/' :: c)
  have htail := goSlice_tail a c
  rw [hhead, htail]

/-- A name `a/b/c` with no `/` in `a`, `b` and the non-empty `c` splits into owner `a`,
project `b` and repo `c`. -/
theorem Split_at_both_slashes (a b c : List Char) (ha : '/' ∉ a) (hb : '/' ∉ b)
    (hc : '/' ∉ c) (hne : c ≠ []) :
    SplitAzureDevopsRepoFullName (String.mk (a ++ '/' :: (b ++ '/' :: c))) =
      (String.mk a, String.mk b, String.mk c) := by
  have hfirst := indexSlash_append a (b ++ '/' :: c) ha
  have hassoc : a ++ '/' :: (b ++ '/' :: c) = (a ++ '/' :: b) ++ '/' :: c := by simp
  have hlast : lastIndexSlash (String.mk (a ++ '/' :: (b ++ '/' :: c))) =
      (((a ++ '/' :: b).length : Nat) : Int) := by
    rw [hassoc]
    exact lastIndexSlash_append (a ++ '/' :: b) c hc
  have hlen : 0 < c.length := List.length_pos.mpr hne
  have hcnt : countSlash (String.mk (a ++ '/' :: (b ++ '/' :: c))) = 2 := by
    show ((List.count '/' (a ++ '/' :: (b ++ '/' :: c)) : Nat) : Int) = 2
    simp [List.count_eq_zero.mpr ha, List.count_eq_zero.mpr hb, List.count_eq_zero.mpr hc]
  have h1 : ¬ (lastIndexSlash (String.mk (a ++ '/' :: (b ++ '/' :: c))) = -1 ∨
      lastIndexSlash (String.mk (a ++ '/' :: (b ++ '/' :: c))) =
        (((String.mk (a ++ '/' :: (b ++ '/' :: c))).data.length : Nat) : Int) - 1) := by
    rw [hlast]
    simp only [List.length_append, List.length_cons]
    push_cast
    rintro (h | h) <;> first | exact h.elim | omega
  have h2 : indexSlash (String.mk (a ++ '/' :: (b ++ '/' :: c))) ≠
      lastIndexSlash (String.mk (a ++ '/' :: (b ++ '/' :: c))) ∧
      countSlash (String.mk (a ++ '/' :: (b ++ '/' :: c))) = 2 := by
    refine ⟨?_, hcnt⟩
    rw [hfirst, hlast]
    simp only [List.length_append, List.length_cons]
    push_cast
    omega
  unfold SplitAzureDevopsRepoFullName
  simp only [h1, if_false]
  rw [if_pos h2, hfirst, hlast]
  have hhead := goSlice_head a ('/' :: (b ++ '/' :: c))
  have hmid := goSlice_middle a b c
  have htail : goSlice (String.mk (a ++ '/' :: (b ++ '/' :: c)))
      ((((a ++ '/' :: b).length : Nat) : Int) + 1)
      (((String.mk (a ++ '/' :: (b ++ '/' :: c))).data.length : Nat) : Int) =
      String.mk c := by
    have := goSlice_tail (a ++ '/' :: b) c
    rw [← hassoc] at this
    exact this
  rw [hhead, hmid, htail]

/-- A list whose last element is not `/` has a non-empty part after its last `/`. -/
theorem tail_ne_nil_of_getLast (a c : List Char)
    (hend : (a ++ '/' :: c).getLast? ≠ some '/') : c ≠ [] := by
  intro hc
  subst hc
  apply hend
  simp

/-- C14: for every string that contains no `/` or whose last character is `/`, the empty
string among them, `SplitAzureDevopsRepoFullName` returns three empty strings. -/
theorem Split_malformed_all_empty (s : String)
    (h : '/' ∉ s.data ∨ s.data.getLast? = some '/') :
    SplitAzureDevopsRepoFullName s = ("", "", "") := by
  have hfirst : lastIndexSlash s = -1 ∨
      lastIndexSlash s = ((s.data.length : Nat) : Int) - 1 := by
    rcases h with hno | hlast
    · exact Or.inl (lastIndexSlash_of_not_mem s hno)
    · right
      obtain ⟨ys, hys⟩ := List.getLast?_eq_some_iff.mp hlast
      have hs : s = String.mk (ys ++ '/' :: []) := by
        cases s
        exact congrArg String.mk hys
      rw [hs, lastIndexSlash_append ys [] (List.not_mem_nil _)]
      simp only [List.length_append, List.length_cons, List.length_nil]
      push_cast
      omega
  unfold SplitAzureDevopsRepoFullName
  simp only [hfirst, if_true]

/-- C14 witness: `noslash`, `trailing/` and the empty string are malformed and give three
empty strings. -/
theorem Split_malformed_all_empty_witness :
    ('/' ∉ "noslash".data ∧ "trailing/".data.getLast? = some '/' ∧ '/' ∉ "".data) ∧
      SplitAzureDevopsRepoFullName "noslash" = ("", "", "") ∧
      SplitAzureDevopsRepoFullName "trailing/" = ("", "", "") ∧
      SplitAzureDevopsRepoFullName "" = ("", "", "") :=
  ⟨⟨by decide, by decide, by decide⟩,
    Split_malformed_all_empty "noslash" (Or.inl (by decide)),
    Split_malformed_all_empty "trailing/" (Or.inr (by decide)),
    Split_malformed_all_empty "" (Or.inl (by decide))⟩

/-- C15: every string with exactly two `/` that does not end with `/` is `a/b/c` with no `/`
in `a`, `b`, `c`, and `SplitAzureDevopsRepoFullName` returns `(a, b, c)`: the text before the
first slash, the text strictly between the two slashes, and the text after the last slash. -/
theorem Split_two_slashes (s : String) (hcount : s.data.count '/' = 2)
    (hend : s.data.getLast? ≠ some '/') :
    ∃ a b c : List Char, s.data = a ++ '/' :: (b ++ '/' :: c) ∧
      '/' ∉ a ∧ '/' ∉ b ∧ '/' ∉ c ∧
      SplitAzureDevopsRepoFullName s = (String.mk a, String.mk b, String.mk c) := by
  have hmem : '/' ∈ s.data := by
    apply List.count_pos_iff.mp
    omega
  obtain ⟨a', c, hs, hc⟩ := exists_last_slash s.data hmem
  have hcount' : a'.count '/' = 1 := by
    rw [hs] at hcount
    simp only [List.count_append, List.count_cons_self, List.count_eq_zero.mpr hc] at hcount
    omega
  have hmem' : '/' ∈ a' := by
    apply List.count_pos_iff.mp
    omega
  obtain ⟨a, b, ha', ha⟩ := exists_first_slash a' hmem'
  have hb : '/' ∉ b := by
    rw [ha'] at hcount'
    simp only [List.count_append, List.count_cons_self, List.count_eq_zero.mpr ha]
      at hcount'
    apply List.count_eq_zero.mp
    omega
  have hdata : s.data = a ++ '/' :: (b ++ '/' :: c) := by
    rw [hs, ha']
    simp
  have hne : c ≠ [] := by
    rw [hs] at hend
    exact tail_ne_nil_of_getLast a' c hend
  have hstr : s = String.mk (a ++ '/' :: (b ++ '/' :: c)) := by
    cases s
    exact congrArg String.mk hdata
  refine ⟨a, b, c, hdata, ha, hb, hc, ?_⟩
  rw [hstr]
  exact Split_at_both_slashes a b c ha hb hc hne

/-- C15 witness: `azuredevops/project/atlantis` has two `/`, does not end with one, and gives
`(azuredevops, project, atlantis)`. -/
theorem Split_two_slashes_witness :
    ("azuredevops/project/atlantis".data.count '/' = 2 ∧
        "azuredevops/project/atlantis".data.getLast? ≠ some '/') ∧
      (∃ a b c : List Char,
        "azuredevops/project/atlantis".data = a ++ '/' :: (b ++ '/' :: c) ∧
        '/' ∉ a ∧ '/' ∉ b ∧ '/' ∉ c ∧
        SplitAzureDevopsRepoFullName "azuredevops/project/atlantis" =
          (String.mk a, String.mk b, String.mk c)) ∧
      SplitAzureDevopsRepoFullName "azuredevops/project/atlantis" =
        ("azuredevops", "project", "atlantis") :=
  ⟨⟨by decide, by decide⟩,
    Split_two_slashes "azuredevops/project/atlantis" (by decide) (by decide), by decide⟩

/-- C16: every string that does not end with `/` and has exactly one or more than two `/` is
`a/c` with no `/` in `c`, and `SplitAzureDevopsRepoFullName` returns `(a, "", c)`: everything
before the last slash, an empty project, and everything after the last slash. -/
theorem Split_one_or_many_slashes (s : String)
    (hcount : s.data.count '/' = 1 ∨ 2 < s.data.count '/')
    (hend : s.data.getLast? ≠ some '/') :
    ∃ a c : List Char, s.data = a ++ '/' :: c ∧ '/' ∉ c ∧
      SplitAzureDevopsRepoFullName s = (String.mk a, "", String.mk c) := by
  have hmem : '/' ∈ s.data := by
    apply List.count_pos_iff.mp
    omega
  obtain ⟨a, c, hs, hc⟩ := exists_last_slash s.data hmem
  have hcount' : a.count '/' ≠ 1 := by
    rw [hs] at hcount
    simp only [List.count_append, List.count_cons_self, List.count_eq_zero.mpr hc] at hcount
    omega
  have hne : c ≠ [] := by
    rw [hs] at hend
    exact tail_ne_nil_of_getLast a c hend
  have hstr : s = String.mk (a ++ '/' :: c) := by
    cases s
    exact congrArg String.mk hs
  refine ⟨a, c, hs, hc, ?_⟩
  rw [hstr]
  exact Split_at_last_slash a c hc hne hcount'

/-- C16 witness: `runatlantis/atlantis` (one `/`) and `gitlab/subgroup/runatlantis/atlantis`
(three `/`) split at the last slash with an empty project. -/
theorem Split_one_or_many_slashes_witness :
    (("runatlantis/atlantis".data.count '/' = 1 ∨
          2 < "runatlantis/atlantis".data.count '/') ∧
        "runatlantis/atlantis".data.getLast? ≠ some '/') ∧
      (∃ a c : List Char, "runatlantis/atlantis".data = a ++ '/' :: c ∧ '/' ∉ c ∧
        SplitAzureDevopsRepoFullName "runatlantis/atlantis" =
          (String.mk a, "", String.mk c)) ∧
      SplitAzureDevopsRepoFullName "runatlantis/atlantis" = ("runatlantis", "", "atlantis") ∧
      SplitAzureDevopsRepoFullName "gitlab/subgroup/runatlantis/atlantis" =
        ("gitlab/subgroup/runatlantis", "", "atlantis") :=
  ⟨⟨by decide, by decide⟩,
    Split_one_or_many_slashes "runatlantis/atlantis" (by decide) (by decide),
    by decide, by decide⟩

/-! ### Lemmas on `CreateComment` -/

/-- The call record of a submission is a comment-creation call with the given text, for the
owner and project the full name splits into. -/
theorem CreateComment_request_eq (repo : Repo) (workItemID : Int) (text : String) :
    CreateComment.request repo workItemID text =
      Call.CreateComment (SplitAzureDevopsRepoFullName repo.FullName).1
        (SplitAzureDevopsRepoFullName repo.FullName).2.1 workItemID { Text := some text } := by
  unfold CreateComment.request
  rcases SplitAzureDevopsRepoFullName repo.FullName with ⟨owner, project, repoName⟩
  rfl

/-- Every call in a list of submissions is a comment-creation call. -/
theorem commentCalls_requests {σ α : Type} (e : Exec σ α) (repo : Repo) (workItemID : Int)
    (texts : List String)
    (hcalls : e.calls = texts.map (CreateComment.request repo workItemID)) :
    commentCalls e = texts.map (CreateComment.request repo workItemID) := by
  unfold commentCalls
  rw [hcalls, List.filter_eq_self]
  intro c hc
  obtain ⟨t, _, rfl⟩ := List.mem_map.mp hc
  rw [CreateComment_request_eq]

/-- The texts of a list of submissions are the texts submitted. -/
theorem submittedTexts_requests {σ α : Type} (e : Exec σ α) (repo : Repo) (workItemID : Int)
    (texts : List String)
    (hcalls : e.calls = texts.map (CreateComment.request repo workItemID)) :
    submittedTexts e = texts := by
  unfold submittedTexts
  rw [hcalls]
  clear hcalls
  induction texts with
  | nil => rfl
  | cons t rest ih =>
    simp only [List.map_cons, List.filterMap_cons, CreateComment_request_eq]
    simp only [CreateComment_request_eq] at ih
    rw [ih]

/-- One turn of the loop of `CreateComment` whose submission the host answers with an error:
the loop returns that error at once. -/
theorem CreateComment_loop_cons_error {σ : Type} (g : Client σ) (md : String → String)
    (repo : Repo) (workItemID : Int) (h h1 : σ) (c : String) (rest : List String)
    (e : GoError) (hsub : CreateComment.submit g h repo workItemID (md c) = (some e, h1)) :
    CreateComment.loop g md repo workItemID h (c :: rest) =
      { host := h1, calls := [CreateComment.request repo workItemID (md c)],
        out := .returned (some e) } := by
  rw [CreateComment.loop]
  simp only [hsub]

/-- One turn of the loop of `CreateComment` whose submission the host accepts: the loop goes
on with the remaining segments. -/
theorem CreateComment_loop_cons_ok {σ : Type} (g : Client σ) (md : String → String)
    (repo : Repo) (workItemID : Int) (h h1 : σ) (c : String) (rest : List String)
    (hsub : CreateComment.submit g h repo workItemID (md c) = (none, h1)) :
    CreateComment.loop g md repo workItemID h (c :: rest) =
      { host := (CreateComment.loop g md repo workItemID h1 rest).host,
        calls := CreateComment.request repo workItemID (md c) ::
          (CreateComment.loop g md repo workItemID h1 rest).calls,
        out := (CreateComment.loop g md repo workItemID h1 rest).out } := by
  rw [CreateComment.loop]
  simp only [hsub]

/-- The loop of `CreateComment` submits a prefix of the converted segments and returns; the
prefix is the whole sequence when it returns nil. -/
theorem CreateComment_loop_prefix {σ : Type} (g : Client σ) (md : String → String)
    (repo : Repo) (workItemID : Int) (segs : List String) :
    ∀ h : σ, ∃ k, k ≤ segs.length ∧
      (CreateComment.loop g md repo workItemID h segs).calls =
        ((segs.take k).map md).map (CreateComment.request repo workItemID) ∧
      ((CreateComment.loop g md repo workItemID h segs).out = .returned none →
        k = segs.length) ∧
      ((CreateComment.loop g md repo workItemID h segs).out = .returned none ∨
        ∃ e, (CreateComment.loop g md repo workItemID h segs).out = .returned (some e)) := by
  induction segs with
  | nil =>
    intro h
    exact ⟨0, Nat.le_refl _, rfl, fun _ => rfl, Or.inl rfl⟩
  | cons c rest ih =>
    intro h
    rcases hsub : CreateComment.submit g h repo workItemID (md c) with ⟨err, h1⟩
    cases err with
    | some e =>
      rw [CreateComment_loop_cons_error g md repo workItemID h h1 c rest e hsub]
      refine ⟨1, by simp, by simp, ?_, Or.inr ⟨e, rfl⟩⟩
      intro hcontra
      cases hcontra
    | none =>
      rw [CreateComment_loop_cons_ok g md repo workItemID h h1 c rest hsub]
      obtain ⟨k, hk, hcalls, hnil, hout⟩ := ih h1
      refine ⟨k + 1, by simpa using hk, ?_, ?_, ?_⟩
      · simp only [hcalls, List.take_succ_cons, List.map_cons]
      · intro hret
        simp only [List.length_cons, Nat.add_right_cancel_iff]
        exact hnil hret
      · exact hout

/-- When the host accepts every submission the loop of `CreateComment` submits every
converted segment, in order, and returns nil. -/
theorem CreateComment_loop_all {σ : Type} (g : Client σ) (md : String → String)
    (repo : Repo) (workItemID : Int) (segs : List String) :
    ∀ h : σ, (∀ a ∈ submitAnswers g repo workItemID h (segs.map md), a = none) →
      (CreateComment.loop g md repo workItemID h segs).calls =
        (segs.map md).map (CreateComment.request repo workItemID) ∧
      (CreateComment.loop g md repo workItemID h segs).out = .returned none := by
  induction segs with
  | nil =>
    intro h _
    exact ⟨rfl, rfl⟩
  | cons c rest ih =>
    intro h hall
    have hfirst : (CreateComment.submit g h repo workItemID (md c)).1 = none :=
      hall _ (by simp [submitAnswers])
    have hrest : ∀ a ∈ submitAnswers g repo workItemID
        (CreateComment.submit g h repo workItemID (md c)).2 (rest.map md), a = none :=
      fun a ha => hall a (by simp [submitAnswers, ha])
    rcases hsub : CreateComment.submit g h repo workItemID (md c) with ⟨err, h1⟩
    rw [hsub] at hfirst hrest
    simp only at hfirst hrest
    subst hfirst
    rw [CreateComment_loop_cons_ok g md repo workItemID h h1 c rest hsub]
    obtain ⟨hcalls, hout⟩ := ih h1 hrest
    exact ⟨by simp only [hcalls, List.map_cons], hout⟩

/-- When submission `k` is the first the host answers with an error, the loop of
`CreateComment` submits the converted segments up to and including that one, in order, and
returns that error. -/
theorem CreateComment_loop_first_error {σ : Type} (g : Client σ) (md : String → String)
    (repo : Repo) (workItemID : Int) (segs : List String) :
    ∀ (h : σ) (k : Nat) (e : GoError),
      (submitAnswers g repo workItemID h (segs.map md))[k]? = some (some e) →
      (∀ j, j < k → (submitAnswers g repo workItemID h (segs.map md))[j]? = some none) →
      (CreateComment.loop g md repo workItemID h segs).calls =
        ((segs.take (k + 1)).map md).map (CreateComment.request repo workItemID) ∧
      (CreateComment.loop g md repo workItemID h segs).out = .returned (some e) := by
  induction segs with
  | nil =>
    intro h k e hk _
    simp [submitAnswers] at hk
  | cons c rest ih =>
    intro h k e hk hbefore
    rcases hsub : CreateComment.submit g h repo workItemID (md c) with ⟨err, h1⟩
    cases k with
    | zero =>
      have herr : err = some e := by
        simpa [submitAnswers, hsub] using hk
      subst herr
      rw [CreateComment_loop_cons_error g md repo workItemID h h1 c rest e hsub]
      exact ⟨by simp, rfl⟩
    | succ k' =>
      have herr : err = none := by
        have h0 := hbefore 0 (Nat.succ_pos _)
        simpa [submitAnswers, hsub] using h0
      subst herr
      rw [CreateComment_loop_cons_ok g md repo workItemID h h1 c rest hsub]
      have hk' : (submitAnswers g repo workItemID h1 (rest.map md))[k']? = some (some e) := by
        simpa [submitAnswers, hsub] using hk
      have hbefore' : ∀ j, j < k' →
          (submitAnswers g repo workItemID h1 (rest.map md))[j]? = some none := by
        intro j hj
        have hj' := hbefore (j + 1) (Nat.succ_lt_succ hj)
        simpa [submitAnswers, hsub] using hj'
      obtain ⟨hcalls, hout⟩ := ih h1 k' e hk' hbefore'
      exact ⟨by simp only [hcalls, List.take_succ_cons, List.map_cons], hout⟩

/-- With exactly one linked work item whose ID is numeric, `CreateComment` is its fetch
followed by the submission loop over the segments of the raw comment. -/
theorem CreateComment_one_item {σ : Type} (g : Client σ) (md : String → String) (h : σ)
    (repo : Repo) (pullNum : Int) (comment : String) (p : GitPullRequest) (ref : ResourceRef)
    (id : String) (n : Int)
    (hfetch : (GetPullRequest g h repo pullNum).out = .returned (some p, none))
    (hrefs : p.WorkItemRefs = [some ref]) (hid : ref.ID = some id)
    (hatoi : strconvAtoi id = .ok n) :
    (CreateComment g md h repo pullNum comment).calls =
        (GetPullRequest g h repo pullNum).calls ++
          (CreateComment.loop g md repo n (GetPullRequest g h repo pullNum).host
            (SplitComment comment CreateComment.maxCommentLength CreateComment.sepEnd
              CreateComment.sepStart)).calls ∧
      (CreateComment g md h repo pullNum comment).out =
        (CreateComment.loop g md repo n (GetPullRequest g h repo pullNum).host
          (SplitComment comment CreateComment.maxCommentLength CreateComment.sepEnd
            CreateComment.sepStart)).out := by
  unfold GetPullRequest at hfetch ⊢
  unfold CreateComment
  rcases hs : SplitAzureDevopsRepoFullName repo.FullName with ⟨owner, project, repoName⟩
  rw [hs] at hfetch
  rcases hr : g.GetWithRepo h owner project repoName pullNum { IncludeWorkItemRefs := true }
    with ⟨⟨pull, err⟩, h1⟩
  simp only [hr, Outcome.returned.injEq, Prod.mk.injEq] at hfetch
  obtain ⟨rfl, rfl⟩ := hfetch
  simp only [hr, hrefs, List.length_singleton, if_true, List.head?_cons, hid, hatoi,
    List.singleton_append, and_self]

/-- With a fetch that succeeds and a number of linked work items other than one,
`CreateComment` issues the fetch alone and returns the ambiguity error for more than one
link, nil for none. -/
theorem CreateComment_not_one_item {σ : Type} (g : Client σ) (md : String → String) (h : σ)
    (repo : Repo) (pullNum : Int) (comment : String) (p : GitPullRequest)
    (hfetch : (GetPullRequest g h repo pullNum).out = .returned (some p, none))
    (hrefs : p.WorkItemRefs.length ≠ 1) :
    (CreateComment g md h repo pullNum comment).calls =
        (GetPullRequest g h repo pullNum).calls ∧
      (CreateComment g md h repo pullNum comment).out =
        if 1 < p.WorkItemRefs.length then
          .returned (some (.plain "pull request linked to more than one work item - ignoring"))
        else .returned none := by
  unfold GetPullRequest at hfetch ⊢
  unfold CreateComment
  rcases hs : SplitAzureDevopsRepoFullName repo.FullName with ⟨owner, project, repoName⟩
  rw [hs] at hfetch
  rcases hr : g.GetWithRepo h owner project repoName pullNum { IncludeWorkItemRefs := true }
    with ⟨⟨pull, err⟩, h1⟩
  simp only [hr, Outcome.returned.injEq, Prod.mk.injEq] at hfetch
  obtain ⟨rfl, rfl⟩ := hfetch
  simp only [hr, hrefs, if_false]
  split_ifs <;> exact ⟨rfl, rfl⟩

/-- The fetch is not a comment-creation call. -/
theorem GetPullRequest_calls_eq {σ : Type} (g : Client σ) (h : σ) (repo : Repo) (num : Int) :
    (GetPullRequest g h repo num).calls =
      [Call.GetWithRepo (SplitAzureDevopsRepoFullName repo.FullName).1
        (SplitAzureDevopsRepoFullName repo.FullName).2.1
        (SplitAzureDevopsRepoFullName repo.FullName).2.2 num { IncludeWorkItemRefs := true }] := by
  unfold GetPullRequest
  rcases SplitAzureDevopsRepoFullName repo.FullName with ⟨owner, project, repoName⟩
  rfl

/-- The comment-creation calls of an execution that issued a fetch and then a list of
submissions are those submissions. -/
theorem commentCalls_after_fetch {σ α : Type} (e : Exec σ α) (g : Client σ) (h : σ)
    (repo : Repo) (pullNum workItemID : Int) (texts : List String)
    (hcalls : e.calls = (GetPullRequest g h repo pullNum).calls ++
      texts.map (CreateComment.request repo workItemID)) :
    commentCalls e = texts.map (CreateComment.request repo workItemID) := by
  have hrest := commentCalls_requests
    ({ host := e.host, calls := texts.map (CreateComment.request repo workItemID),
       out := e.out } : Exec σ α) repo workItemID texts rfl
  unfold commentCalls at hrest ⊢
  rw [hcalls, GetPullRequest_calls_eq, List.singleton_append, List.filter_cons]
  exact hrest

/-- The texts submitted by an execution that issued a fetch and then a list of submissions
are the texts of those submissions. -/
theorem submittedTexts_after_fetch {σ α : Type} (e : Exec σ α) (g : Client σ) (h : σ)
    (repo : Repo) (pullNum workItemID : Int) (texts : List String)
    (hcalls : e.calls = (GetPullRequest g h repo pullNum).calls ++
      texts.map (CreateComment.request repo workItemID)) :
    submittedTexts e = texts := by
  have hrest := submittedTexts_requests
    ({ host := e.host, calls := texts.map (CreateComment.request repo workItemID),
       out := e.out } : Exec σ α) repo workItemID texts rfl
  unfold submittedTexts at hrest ⊢
  rw [hcalls, GetPullRequest_calls_eq, List.singleton_append, List.filterMap_cons]
  exact hrest

/-- A comment of at most `maxCommentLength` characters is its own single segment. -/
theorem SplitComment_short (comment : String)
    (hlen : comment.length ≤ CreateComment.maxCommentLength) :
    SplitComment comment CreateComment.maxCommentLength CreateComment.sepEnd
      CreateComment.sepStart = [comment] := by
  unfold SplitComment
  rw [if_pos hlen]

/-- The longest single comment has 65536 characters. -/
theorem longestSingleComment_length : longestSingleComment.length = 65536 :=
  List.length_replicate _ _

/-- The paragraph rendering of the longest single comment has 65544 characters. -/
theorem renderParagraph_longest_length :
    (renderParagraph longestSingleComment).length = 65544 := by
  unfold renderParagraph
  rw [String.length_append, String.length_append, longestSingleComment_length]
  rfl

/-- At the host with one work item that accepts every comment, a comment of at most
`maxCommentLength` characters is submitted as one text: its conversion. -/
theorem CreateComment_short_texts (md : String → String) (comment : String)
    (hlen : comment.length ≤ CreateComment.maxCommentLength) :
    submittedTexts (CreateComment oneWorkItemHost md () testRepo 1 comment) = [md comment] := by
  obtain ⟨hcalls, _⟩ := CreateComment_one_item oneWorkItemHost md () testRepo 1 comment
    { WorkItemRefs := [some { ID := some "42" }] } { ID := some "42" } "42" 42 rfl rfl rfl rfl
  rw [SplitComment_short comment hlen,
    CreateComment_loop_cons_ok oneWorkItemHost md testRepo 42 _ () comment [] rfl] at hcalls
  exact submittedTexts_after_fetch _ oneWorkItemHost () testRepo 1 42 [md comment] hcalls

/-! ### Claims on `CreateComment` -/

/-- C11: when the fetched pull request is linked to more than one work item, `CreateComment`
returns the error `pull request linked to more than one work item - ignoring` and issues no
work-item comment-creation call. -/
theorem CreateComment_ambiguous_work_items {σ : Type} (g : Client σ) (md : String → String)
    (h : σ) (repo : Repo) (pullNum : Int) (comment : String) (p : GitPullRequest)
    (hfetch : (GetPullRequest g h repo pullNum).out = .returned (some p, none))
    (hmany : 1 < p.WorkItemRefs.length) :
    (∃ e, (CreateComment g md h repo pullNum comment).out = .returned (some e) ∧
        e.Error = "pull request linked to more than one work item - ignoring") ∧
      commentCalls (CreateComment g md h repo pullNum comment) = [] := by
  obtain ⟨hcalls, hout⟩ := CreateComment_not_one_item g md h repo pullNum comment p hfetch
    (by omega)
  rw [if_pos hmany] at hout
  refine ⟨⟨_, hout, rfl⟩, ?_⟩
  exact commentCalls_after_fetch _ g h repo pullNum 0 [] (by simpa using hcalls)

/-- C11 witness: at a host whose pull request is linked to the work items `42` and `43`,
`CreateComment` returns the ambiguity error and submits nothing. -/
theorem CreateComment_ambiguous_work_items_witness :
    ((GetPullRequest twoWorkItemsHost () testRepo 1).out =
        .returned (some { WorkItemRefs := [some { ID := some "42" }, some { ID := some "43" }] },
          none) ∧
      1 < [some ({ ID := some "42" } : ResourceRef), some { ID := some "43" }].length) ∧
    ((∃ e, (CreateComment twoWorkItemsHost renderParagraph () testRepo 1 "hello").out =
        .returned (some e) ∧
        e.Error = "pull request linked to more than one work item - ignoring") ∧
      commentCalls (CreateComment twoWorkItemsHost renderParagraph () testRepo 1 "hello") =
        []) :=
  ⟨⟨by decide, by decide⟩,
    CreateComment_ambiguous_work_items twoWorkItemsHost renderParagraph () testRepo 1 "hello"
      { WorkItemRefs := [some { ID := some "42" }, some { ID := some "43" }] }
      (by decide) (by decide)⟩

/-- C12: when the pull request is linked to exactly one work item with a numeric ID, the
comment-creation calls of `CreateComment` are, in order, one per segment of the split comment
for a prefix of the segments.  When the host accepts every submission the prefix is the whole
sequence and the result is nil; when submission `k` is the first the host answers with an
error, the prefix ends with that submission, its error is returned, and no later segment is
submitted. -/
theorem CreateComment_submits_in_order {σ : Type} (g : Client σ) (md : String → String)
    (h : σ) (repo : Repo) (pullNum : Int) (comment : String) (p : GitPullRequest)
    (ref : ResourceRef) (id : String) (n : Int)
    (hfetch : (GetPullRequest g h repo pullNum).out = .returned (some p, none))
    (hrefs : p.WorkItemRefs = [some ref]) (hid : ref.ID = some id)
    (hatoi : strconvAtoi id = .ok n) :
    ((∀ a ∈ submitAnswers g repo n (GetPullRequest g h repo pullNum).host
          ((SplitComment comment CreateComment.maxCommentLength CreateComment.sepEnd
            CreateComment.sepStart).map md), a = none) →
        commentCalls (CreateComment g md h repo pullNum comment) =
            (SplitComment comment CreateComment.maxCommentLength CreateComment.sepEnd
              CreateComment.sepStart).map (fun c => CreateComment.request repo n (md c)) ∧
          (CreateComment g md h repo pullNum comment).out = .returned none) ∧
      (∀ (k : Nat) (e : GoError),
        (submitAnswers g repo n (GetPullRequest g h repo pullNum).host
          ((SplitComment comment CreateComment.maxCommentLength CreateComment.sepEnd
            CreateComment.sepStart).map md))[k]? = some (some e) →
        (∀ j, j < k →
          (submitAnswers g repo n (GetPullRequest g h repo pullNum).host
            ((SplitComment comment CreateComment.maxCommentLength CreateComment.sepEnd
              CreateComment.sepStart).map md))[j]? = some none) →
        commentCalls (CreateComment g md h repo pullNum comment) =
            ((SplitComment comment CreateComment.maxCommentLength CreateComment.sepEnd
              CreateComment.sepStart).take (k + 1)).map
                (fun c => CreateComment.request repo n (md c)) ∧
          (CreateComment g md h repo pullNum comment).out = .returned (some e)) := by
  obtain ⟨hcalls, hout⟩ :=
    CreateComment_one_item g md h repo pullNum comment p ref id n hfetch hrefs hid hatoi
  constructor
  · intro hall
    obtain ⟨hloop, hret⟩ := CreateComment_loop_all g md repo n _ _ hall
    rw [hloop] at hcalls
    rw [hret] at hout
    refine ⟨?_, hout⟩
    rw [commentCalls_after_fetch _ g h repo pullNum n _ hcalls, List.map_map]
    rfl
  · intro k e hk hbefore
    obtain ⟨hloop, hret⟩ := CreateComment_loop_first_error g md repo n _ _ k e hk hbefore
    rw [hloop] at hcalls
    rw [hret] at hout
    refine ⟨?_, hout⟩
    rw [commentCalls_after_fetch _ g h repo pullNum n _ hcalls, List.map_map]
    rfl

/-- C12 witness: at a host with the one work item `42` that rejects every comment, the one
segment of `hello` is submitted and the host's error is returned. -/
theorem CreateComment_submits_in_order_witness :
    ((GetPullRequest rejectingCommentsHost () testRepo 1).out =
        .returned (some { WorkItemRefs := [some { ID := some "42" }] }, none) ∧
      strconvAtoi "42" = .ok 42) ∧
    (commentCalls (CreateComment rejectingCommentsHost renderParagraph () testRepo 1 "hello") =
        [Call.CreateComment "owner" "project" 42 { Text := some "<p>hello</p>\n" }] ∧
      (CreateComment rejectingCommentsHost renderParagraph () testRepo 1 "hello").out =
        .returned (some (.transport "500 Internal Server Error"))) :=
  ⟨⟨by decide, rfl⟩,
    (CreateComment_submits_in_order rejectingCommentsHost renderParagraph () testRepo 1 "hello"
      { WorkItemRefs := [some { ID := some "42" }] } { ID := some "42" } "42" 42
      (by decide) rfl rfl rfl).2 0 (.transport "500 Internal Server Error") rfl
      (fun j hj => absurd hj (Nat.not_lt_zero j))⟩

/-- C13: for the comment of 65536 letters `a`, whose conversion is the paragraph
`<p>aaa...</p>` of 65544 characters, `CreateComment` splits the raw text into its one segment
and submits the conversion of that segment as a single text.  The submitted text is longer
than `maxCommentLength`, the 65536 characters the code allows a single comment, and the texts
submitted are not the chunker's segments of the converted comment, of which there are two. -/
theorem CreateComment_converted_text_too_long :
    submittedTexts
        (CreateComment oneWorkItemHost renderParagraph () testRepo 1 longestSingleComment) =
      [renderParagraph longestSingleComment] ∧
    (renderParagraph longestSingleComment).length = 65544 ∧
    CreateComment.maxCommentLength = 65536 ∧
    ¬ (∀ t ∈ submittedTexts
        (CreateComment oneWorkItemHost renderParagraph () testRepo 1 longestSingleComment),
      t.length ≤ CreateComment.maxCommentLength) ∧
    submittedTexts
        (CreateComment oneWorkItemHost renderParagraph () testRepo 1 longestSingleComment) ≠
      SplitComment (renderParagraph longestSingleComment) CreateComment.maxCommentLength
        CreateComment.sepEnd CreateComment.sepStart ∧
    (SplitComment (renderParagraph longestSingleComment) CreateComment.maxCommentLength
      CreateComment.sepEnd CreateComment.sepStart).length = 2 := by
  have htexts := CreateComment_short_texts renderParagraph longestSingleComment
    (by rw [longestSingleComment_length]; decide)
  have hlong : ¬ (renderParagraph longestSingleComment).length ≤
      CreateComment.maxCommentLength := by
    rw [renderParagraph_longest_length]
    decide
  have hsegs : (SplitComment (renderParagraph longestSingleComment)
      CreateComment.maxCommentLength CreateComment.sepEnd CreateComment.sepStart).length =
        2 := by
    unfold SplitComment
    rw [if_neg hlong]
    simp only [List.length_map, List.length_range, renderParagraph_longest_length]
    decide
  refine ⟨htexts, renderParagraph_longest_length, rfl, ?_, ?_, hsegs⟩
  · rw [htexts]
    intro hall
    exact hlong (hall _ (List.mem_singleton_self _))
  · rw [htexts]
    intro heq
    have hlen := congrArg List.length heq
    rw [hsegs] at hlen
    cases hlen

/-! ### Lemmas on `GetModifiedFiles` -/

/-- What `GetModifiedFiles` does, in one equation: a pull-request fetch, then one change-set
fetch for the last merge source commit, then the loop over the changes of that one answer;
the error it returns is nil. -/
theorem GetModifiedFiles_exec {σ : Type} (g : Client σ) (h : σ) (repo : Repo)
    (pull : PullRequest) :
    (GetModifiedFiles g h repo pull).calls =
        [Call.GetWithRepo (SplitAzureDevopsRepoFullName repo.FullName).1
          (SplitAzureDevopsRepoFullName repo.FullName).2.1
          (SplitAzureDevopsRepoFullName repo.FullName).2.2 pull.Num
          { IncludeWorkItemRefs := true },
        Call.GetChanges (SplitAzureDevopsRepoFullName repo.FullName).1
          (SplitAzureDevopsRepoFullName repo.FullName).2.1
          (SplitAzureDevopsRepoFullName repo.FullName).2.2
          (GetModifiedFiles.commitID g h repo pull)] ∧
      (GetModifiedFiles g h repo pull).host = (GetModifiedFiles.changesResponse g h repo pull).2 ∧
      (GetModifiedFiles g h repo pull).out =
        match (GetModifiedFiles.changesResponse g h repo pull).1.1 with
        | none => .nilDeref
        | some changes =>
          match GetModifiedFiles.loop (freshAddr changes.Changes) changes.Changes [] with
          | .returned files => .returned (files, none)
          | .nilDeref => .nilDeref := by
  unfold GetModifiedFiles GetModifiedFiles.changesResponse GetModifiedFiles.commitID
    GetModifiedFiles.pullResponse
  rcases SplitAzureDevopsRepoFullName repo.FullName with ⟨owner, project, repoName⟩
  rcases hr1 : g.GetWithRepo h owner project repoName pull.Num { IncludeWorkItemRefs := true }
    with ⟨⟨commitIDResponse, err1⟩, h1⟩
  simp only [hr1]
  rcases hr2 : g.GetChanges h1 owner project repoName
    (GitCommitRef.GetCommitID (GitPullRequest.GetLastMergeSourceCommit commitIDResponse))
    with ⟨⟨r, err2⟩, h2⟩
  simp only [hr2]
  cases r with
  | none => exact ⟨rfl, rfl, rfl⟩
  | some changes =>
    simp only
    cases GetModifiedFiles.loop (freshAddr changes.Changes) changes.Changes [] <;>
      exact ⟨rfl, rfl, rfl⟩

/-- Whatever the host answers, `GetModifiedFiles` never returns a non-nil error. -/
theorem GetModifiedFiles_error_nil {σ : Type} (g : Client σ) (h : σ) (repo : Repo)
    (pull : PullRequest) (files : List String) (e : Option GoError)
    (hout : (GetModifiedFiles g h repo pull).out = .returned (files, e)) : e = none := by
  rw [(GetModifiedFiles_exec g h repo pull).2.2] at hout
  cases hr : (GetModifiedFiles.changesResponse g h repo pull).1.1 with
  | none =>
    rw [hr] at hout
    cases hout
  | some changes =>
    rw [hr] at hout
    simp only at hout
    cases hl : GetModifiedFiles.loop (freshAddr changes.Changes) changes.Changes [] with
    | returned fs =>
      rw [hl] at hout
      simp only [Outcome.returned.injEq, Prod.mk.injEq] at hout
      exact hout.2.symm
    | nilDeref =>
      rw [hl] at hout
      cases hout

/-! ### Claims on `GetModifiedFiles` and on the fetch errors -/

/-- C17: when the change-set fetch fails, `GetModifiedFiles` returns an empty list with a nil
error if the client hands back an empty change set, and panics on the nil change set
otherwise; when the pull-request fetch fails and the change-set fetch answers, it returns that
answer's paths with a nil error.  In no case is the failure returned as an error. -/
theorem GetModifiedFiles_discards_fetch_errors :
    (GetModifiedFiles changesErrorHost () testRepo { Num := 1 }).out = .returned ([], none) ∧
      (GetModifiedFiles changesErrorNilHost () testRepo { Num := 1 }).out = .nilDeref ∧
      (GetModifiedFiles pullErrorHost () testRepo { Num := 1 }).out =
        .returned (["file1.txt"], none) ∧
      (GetModifiedFiles.changesResponse changesErrorHost () testRepo { Num := 1 }).1.2 =
        some (.transport "500 Internal Server Error") ∧
      (GetModifiedFiles.pullResponse pullErrorHost () testRepo { Num := 1 }).1.2 =
        some (.transport "500 Internal Server Error") := by
  decide

/-- C18: at a host that serves the change set in two pages, `file1.txt` on the first and
`file2.txt` on the second, `GetModifiedFiles` issues one change-set request, returns the paths
of the first page alone, and leaves the second page unrequested on the host. -/
theorem GetModifiedFiles_single_page :
    (GetModifiedFiles pagedHost twoPages testRepo { Num := 1 }).out =
        .returned (["file1.txt"], none) ∧
      (GetModifiedFiles pagedHost twoPages testRepo { Num := 1 }).calls =
        [Call.GetWithRepo "owner" "project" "repo" 1 { IncludeWorkItemRefs := true },
          Call.GetChanges "owner" "project" "repo" "b60280bc"] ∧
      (GetModifiedFiles pagedHost twoPages testRepo { Num := 1 }).host =
        [{ Changes := [addedFile 1 "file2.txt"] }] := by
  decide

/-- C19: for every change list the host answers with, free of nil entries and of renames,
`GetModifiedFiles` returns exactly the item paths of the changes, in the host's order and
with duplicates kept, so as many paths as there are changes, with a nil error; the change
set it asked for is that of the last merge source commit of the fetched pull request. -/
theorem GetModifiedFiles_item_paths {σ : Type} (g : Client σ) (h : σ) (repo : Repo)
    (pull : PullRequest) (changes : GitCommitChanges)
    (hchanges : (GetModifiedFiles.changesResponse g h repo pull).1.1 = some changes)
    (hentries : ∀ c ∈ changes.Changes, c ≠ none)
    (hnorename : ∀ ch r, some ch ∈ changes.Changes → ch.ChangeType = some r →
      r.val ≠ VersionControlChangeType.Rename.String) :
    (GetModifiedFiles g h repo pull).out =
        .returned (changes.Changes.map (fun c => GitItem.GetPath (GitChange.GetItem c)),
          none) ∧
      (changes.Changes.map (fun c => GitItem.GetPath (GitChange.GetItem c))).length =
        changes.Changes.length ∧
      (GetModifiedFiles g h repo pull).calls =
        [Call.GetWithRepo (SplitAzureDevopsRepoFullName repo.FullName).1
          (SplitAzureDevopsRepoFullName repo.FullName).2.1
          (SplitAzureDevopsRepoFullName repo.FullName).2.2 pull.Num
          { IncludeWorkItemRefs := true },
        Call.GetChanges (SplitAzureDevopsRepoFullName repo.FullName).1
          (SplitAzureDevopsRepoFullName repo.FullName).2.1
          (SplitAzureDevopsRepoFullName repo.FullName).2.2
          (GitCommitRef.GetCommitID (GitPullRequest.GetLastMergeSourceCommit
            (GetModifiedFiles.pullResponse g h repo pull).1.1))] := by
  have _hnr := hnorename
  obtain ⟨hcalls, _, hout⟩ := GetModifiedFiles_exec g h repo pull
  refine ⟨?_, List.length_map _ _, hcalls⟩
  rw [hout, hchanges]
  simp only
  rw [GetModifiedFiles_loop_eq changes.Changes (freshAddr changes.Changes) []
    (fun ch r hm hr => addr_lt_freshAddr changes.Changes ch r hm hr)]
  have hall : changes.Changes.all Option.isSome = true := by
    rw [List.all_eq_true]
    intro c hc
    cases c with
    | none => exact absurd rfl (hentries none hc)
    | some _ => rfl
  simp only [hall, if_true, List.nil_append]

/-- C19 witness: the host of `TestAzureDevopsClient_GetModifiedFiles` answers with two added
files, and `GetModifiedFiles` returns `file1.txt` and `file2.txt`. -/
theorem GetModifiedFiles_item_paths_witness :
    (GetModifiedFiles.changesResponse twoFilesHost () testRepo { Num := 1 }).1.1 =
        some { Changes := [addedFile 0 "file1.txt", addedFile 1 "file2.txt"] } ∧
      (GetModifiedFiles twoFilesHost () testRepo { Num := 1 }).out =
        .returned (["file1.txt", "file2.txt"], none) :=
  ⟨by decide,
    (GetModifiedFiles_item_paths twoFilesHost () testRepo { Num := 1 }
      { Changes := [addedFile 0 "file1.txt", addedFile 1 "file2.txt"] } (by decide)
      (by decide)
      (by
        intro ch r hmem hr
        simp only [List.mem_cons, List.not_mem_nil, or_false, addedFile,
          Option.some.injEq] at hmem
        rcases hmem with rfl | rfl
        · simp only [Option.some.injEq] at hr
          subst hr
          decide
        · simp only [Option.some.injEq] at hr
          subst hr
          decide)).1⟩

/-- C20: when the pull-request fetch returns an error `e`, whatever pull request comes with
it, `PullIsApproved` and `PullIsMergeable` each return `false` and the error `e` wrapped as
`getting pull request: e`; the reviewers and the merge status play no part. -/
theorem PullIs_fetch_error_wrapped {σ : Type} (g : Client σ) (h : σ) (repo : Repo)
    (pull : PullRequest) (p : Option GitPullRequest) (e : GoError)
    (hfetch : (GetPullRequest g h repo pull.Num).out = .returned (p, some e)) :
    (PullIsApproved g h repo pull).out =
        .returned (false, some (.wrapped e "getting pull request")) ∧
      (PullIsMergeable g h repo pull).out =
        .returned (false, some (.wrapped e "getting pull request")) ∧
      (GoError.wrapped e "getting pull request").Error =
        "getting pull request: " ++ e.Error := by
  unfold GetPullRequest at hfetch
  unfold PullIsApproved PullIsMergeable
  rcases hs : SplitAzureDevopsRepoFullName repo.FullName with ⟨owner, project, repoName⟩
  rw [hs] at hfetch
  rcases hr : g.GetWithRepo h owner project repoName pull.Num { IncludeWorkItemRefs := true }
    with ⟨⟨adPull, err⟩, h1⟩
  simp only [hr, Outcome.returned.injEq, Prod.mk.injEq] at hfetch
  obtain ⟨rfl, rfl⟩ := hfetch
  simp only [hr]
  exact ⟨rfl, rfl, rfl⟩

/-- C20 witness: at a host whose fetch fails with `404 Not Found` and hands back a pull
request with an unset vote and no merge status, both operations return `false` and the
wrapped error. -/
theorem PullIs_fetch_error_wrapped_witness :
    (GetPullRequest fetchErrorHost () testRepo 1).out =
        .returned (some { Reviewers := [some { Vote := none }], MergeStatus := none },
          some (.transport "404 Not Found")) ∧
      (PullIsApproved fetchErrorHost () testRepo { Num := 1 }).out =
        .returned (false, some (.wrapped (.transport "404 Not Found") "getting pull request")) ∧
      (PullIsMergeable fetchErrorHost () testRepo { Num := 1 }).out =
        .returned (false, some (.wrapped (.transport "404 Not Found") "getting pull request")) ∧
      (GoError.wrapped (.transport "404 Not Found") "getting pull request").Error =
        "getting pull request: " ++ (GoError.transport "404 Not Found").Error :=
  ⟨by decide,
    PullIs_fetch_error_wrapped fetchErrorHost () testRepo { Num := 1 }
      (some { Reviewers := [some { Vote := none }], MergeStatus := none })
      (.transport "404 Not Found") (by decide)⟩

/-! ### Further lemmas on `SplitAzureDevopsRepoFullName` -/

/-- A name with a `/` that does not end with `/` is `a/c` with no `/` in the non-empty `c`. -/
theorem exists_repo_part (s : String) (hmem : '/' ∈ s.data)
    (hend : s.data.getLast? ≠ some '/') :
    ∃ a c : List Char, s = String.mk (a ++ '/' :: c) ∧ '/' ∉ c ∧ c ≠ [] := by
  obtain ⟨a, c, hs, hc⟩ := exists_last_slash s.data hmem
  have hne : c ≠ [] := by
    rw [hs] at hend
    exact tail_ne_nil_of_getLast a c hend
  refine ⟨a, c, ?_, hc, hne⟩
  cases s
  exact congrArg String.mk hs

/-- A list with exactly one `/` is `a/b` with no `/` in `a` and `b`. -/
theorem exists_single_slash (l : List Char) (hcount : l.count '/' = 1) :
    ∃ a b : List Char, l = a ++ '/' :: b ∧ '/' ∉ a ∧ '/' ∉ b := by
  have hmem : '/' ∈ l := by
    apply List.count_pos_iff.mp
    omega
  obtain ⟨a, b, hl, ha⟩ := exists_first_slash l hmem
  refine ⟨a, b, hl, ha, ?_⟩
  rw [hl] at hcount
  simp only [List.count_append, List.count_cons_self, List.count_eq_zero.mpr ha] at hcount
  apply List.count_eq_zero.mp
  omega

/-- A name without `/`, or ending with `/`, splits into three empty strings. -/
theorem Split_of_malformed (s : String)
    (h : '/' ∉ s.data ∨ s.data.getLast? = some '/') :
    SplitAzureDevopsRepoFullName s = ("", "", "") := by
  have hfirst : lastIndexSlash s = -1 ∨
      lastIndexSlash s = ((s.data.length : Nat) : Int) - 1 := by
    rcases h with hno | hlast
    · exact Or.inl (lastIndexSlash_of_not_mem s hno)
    · right
      obtain ⟨ys, hys⟩ := List.getLast?_eq_some_iff.mp hlast
      have hs : s = String.mk (ys ++ '/' :: []) := by
        cases s
        exact congrArg String.mk hys
      rw [hs, lastIndexSlash_append ys [] (List.not_mem_nil _)]
      simp only [List.length_append, List.length_cons, List.length_nil]
      push_cast
      omega
  unfold SplitAzureDevopsRepoFullName
  simp only [hfirst, if_true]

/-- The number of `/` in `a/c` with no `/` in `c` is one more than in `a`. -/
theorem count_slash_append (a c : List Char) (hc : '/' ∉ c) :
    (a ++ '/' :: c).count '/' = a.count '/' + 1 := by
  simp only [List.count_append, List.count_cons_self, List.count_eq_zero.mpr hc]

/-- Appending strings appends their characters. -/
theorem mk_append_mk (a b : List Char) : String.mk a ++ String.mk b = String.mk (a ++ b) :=
  rfl

/-- C26: for every string `s` that contains a `/` and does not end with `/`, with
`(owner, project, repo)` the result of `SplitAzureDevopsRepoFullName`: if `s` has exactly two
`/` then `owner/project/repo` is `s`; otherwise the project is empty and `owner/repo` is
`s`. -/
theorem Split_reconstructs (s : String) (hmem : '/' ∈ s.data)
    (hend : s.data.getLast? ≠ some '/') :
    (s.data.count '/' = 2 →
        (SplitAzureDevopsRepoFullName s).1 ++ "/" ++ (SplitAzureDevopsRepoFullName s).2.1 ++
          "/" ++ (SplitAzureDevopsRepoFullName s).2.2 = s) ∧
      (s.data.count '/' ≠ 2 →
        (SplitAzureDevopsRepoFullName s).2.1 = "" ∧
          (SplitAzureDevopsRepoFullName s).1 ++ "/" ++ (SplitAzureDevopsRepoFullName s).2.2 =
            s) := by
  obtain ⟨a, c, hs, hc, hne⟩ := exists_repo_part s hmem hend
  have hslash : ("/" : String) = String.mk ['/'] := rfl
  subst hs
  constructor
  · intro hcount
    rw [count_slash_append a c hc] at hcount
    obtain ⟨a1, b, ha, ha1, hb⟩ := exists_single_slash a (by omega)
    subst ha
    have hassoc : a1 ++ '/' :: b ++ '/' :: c = a1 ++ '/' :: (b ++ '/' :: c) := by simp
    rw [hassoc, Split_at_both_slashes a1 b c ha1 hb hc hne, hslash]
    simp only [mk_append_mk]
    simp
  · intro hcount
    rw [count_slash_append a c hc] at hcount
    rw [Split_at_last_slash a c hc hne (by omega), hslash]
    refine ⟨rfl, ?_⟩
    simp only [mk_append_mk]
    simp

/-- C26 witness: `azuredevops/project/atlantis` is put together again from its three parts,
`gitlab/subgroup/runatlantis/atlantis` from owner and repo. -/
theorem Split_reconstructs_witness :
    ('/' ∈ "azuredevops/project/atlantis".data ∧
        "azuredevops/project/atlantis".data.getLast? ≠ some '/' ∧
        "azuredevops/project/atlantis".data.count '/' = 2) ∧
      (SplitAzureDevopsRepoFullName "azuredevops/project/atlantis").1 ++ "/" ++
          (SplitAzureDevopsRepoFullName "azuredevops/project/atlantis").2.1 ++ "/" ++
          (SplitAzureDevopsRepoFullName "azuredevops/project/atlantis").2.2 =
        "azuredevops/project/atlantis" ∧
      ((SplitAzureDevopsRepoFullName "gitlab/subgroup/runatlantis/atlantis").2.1 = "" ∧
        (SplitAzureDevopsRepoFullName "gitlab/subgroup/runatlantis/atlantis").1 ++ "/" ++
            (SplitAzureDevopsRepoFullName "gitlab/subgroup/runatlantis/atlantis").2.2 =
          "gitlab/subgroup/runatlantis/atlantis") :=
  ⟨⟨by decide, by decide, by decide⟩,
    (Split_reconstructs "azuredevops/project/atlantis" (by decide) (by decide)).1 (by decide),
    (Split_reconstructs "gitlab/subgroup/runatlantis/atlantis" (by decide) (by decide)).2
      (by decide)⟩

/-- The repo component of `a/c`, with no `/` in the non-empty `c`, is `c`. -/
theorem Split_repo_component (a c : List Char) (hc : '/' ∉ c) (hne : c ≠ []) :
    (SplitAzureDevopsRepoFullName (String.mk (a ++ '/' :: c))).2.2 = String.mk c := by
  by_cases hcount : a.count '/' = 1
  · obtain ⟨a1, b, ha, ha1, hb⟩ := exists_single_slash a hcount
    subst ha
    have hassoc : a1 ++ '/' :: b ++ '/' :: c = a1 ++ '/' :: (b ++ '/' :: c) := by simp
    rw [hassoc, Split_at_both_slashes a1 b c ha1 hb hc hne]
  · rw [Split_at_last_slash a c hc hne hcount]

/-- C27: `SplitAzureDevopsRepoFullName` returns three empty strings if and only if the input
has no `/` or ends with `/`; for every other input the repo component is non-empty and holds
no `/`, while the owner may be empty, as for `/repo`. -/
theorem Split_sentinel_exact (s : String) :
    (SplitAzureDevopsRepoFullName s = ("", "", "") ↔
        ('/' ∉ s.data ∨ s.data.getLast? = some '/')) ∧
      (¬ ('/' ∉ s.data ∨ s.data.getLast? = some '/') →
        (SplitAzureDevopsRepoFullName s).2.2 ≠ "" ∧
          '/' ∉ (SplitAzureDevopsRepoFullName s).2.2.data) ∧
      SplitAzureDevopsRepoFullName "/repo" = ("", "", "repo") := by
  have hwell : ¬ ('/' ∉ s.data ∨ s.data.getLast? = some '/') →
      (SplitAzureDevopsRepoFullName s).2.2 ≠ "" ∧
        '/' ∉ (SplitAzureDevopsRepoFullName s).2.2.data := by
    intro hnot
    have hmem : '/' ∈ s.data := by
      by_contra hno
      exact hnot (Or.inl hno)
    have hend : s.data.getLast? ≠ some '/' := fun hl => hnot (Or.inr hl)
    obtain ⟨a, c, hs, hc, hne⟩ := exists_repo_part s hmem hend
    subst hs
    rw [Split_repo_component a c hc hne]
    refine ⟨?_, hc⟩
    intro hempty
    exact hne (congrArg String.data hempty)
  refine ⟨⟨?_, Split_of_malformed s⟩, hwell, by decide⟩
  intro hres
  by_contra hnot
  have hrepo := (hwell hnot).1
  rw [hres] at hrepo
  exact hrepo rfl

/-! ### Further claims on `MergePull` and `CreateComment` -/

/-- The one outbound call of `MergePull` is the merge call for `pull.Num` in the repository
the base repo's full name splits into, with the fixed body, options and identity. -/
theorem MergePull_calls_eq {σ : Type} (g : Client σ) (h : σ) (pull : PullRequest) :
    (MergePull g h pull).calls =
      [Call.Merge (SplitAzureDevopsRepoFullName pull.BaseRepo.FullName).1
        (SplitAzureDevopsRepoFullName pull.BaseRepo.FullName).2.1
        (SplitAzureDevopsRepoFullName pull.BaseRepo.FullName).2.2 pull.Num
        MergePull.mergePull MergePull.completionOpts MergePull.id] := by
  rw [(MergePull_calls_host g h pull).1]
  unfold MergePull.request
  rcases SplitAzureDevopsRepoFullName pull.BaseRepo.FullName with ⟨owner, project, repoName⟩
  rfl

/-- C21: for every pull request, the merge call of `MergePull` targets `pull.Num` in the
repository `pull.BaseRepo.FullName` splits into, and carries the no-fast-forward strategy,
`transitionWorkItems` true, `bypassPolicy`, `deleteSourceBranch`, `squashMerge` and
`triggeredByAutoComplete` false, an empty bypass reason, the message
`common.AutomergeCommitMsg` and the identity with ID `atlantis`; body, options and identity
are the same for every pull request and host. -/
theorem MergePull_fixed_request :
    ∃ (body : GitPullRequest) (opts : GitPullRequestCompletionOptions) (id : IdentityRef),
      (∀ {σ : Type} (g : Client σ) (h : σ) (pull : PullRequest),
        (MergePull g h pull).calls =
          [Call.Merge (SplitAzureDevopsRepoFullName pull.BaseRepo.FullName).1
            (SplitAzureDevopsRepoFullName pull.BaseRepo.FullName).2.1
            (SplitAzureDevopsRepoFullName pull.BaseRepo.FullName).2.2 pull.Num
            body opts id]) ∧
      body.CompletionOptions = some opts ∧
      body.AutoCompleteSetBy = some id ∧
      opts.MergeStrategy = some GitPullRequestMergeStrategy.NoFastForward.String ∧
      opts.TransitionWorkItems = some true ∧
      opts.BypassPolicy = some false ∧
      opts.DeleteSourceBranch = some false ∧
      opts.SquashMerge = some false ∧
      opts.TriggeredByAutoComplete = some false ∧
      opts.BypassReason = some "" ∧
      opts.MergeCommitMessage = some AutomergeCommitMsg ∧
      id.ID = some "atlantis" :=
  ⟨MergePull.mergePull, MergePull.completionOpts, MergePull.id,
    fun g h pull => MergePull_calls_eq g h pull, by decide⟩

/-- C28: when the fetched pull request is linked to no work item, `CreateComment` returns
nil and issues no comment-creation call, whatever the comment. -/
theorem CreateComment_no_work_item {σ : Type} (g : Client σ) (md : String → String)
    (h : σ) (repo : Repo) (pullNum : Int) (comment : String) (p : GitPullRequest)
    (hfetch : (GetPullRequest g h repo pullNum).out = .returned (some p, none))
    (hnone : p.WorkItemRefs = []) :
    (CreateComment g md h repo pullNum comment).out = .returned none ∧
      commentCalls (CreateComment g md h repo pullNum comment) = [] ∧
      (CreateComment g md h repo pullNum comment).calls =
        (GetPullRequest g h repo pullNum).calls := by
  obtain ⟨hcalls, hout⟩ := CreateComment_not_one_item g md h repo pullNum comment p hfetch
    (by rw [hnone]; decide)
  rw [hnone] at hout
  refine ⟨hout, ?_, hcalls⟩
  exact commentCalls_after_fetch _ g h repo pullNum 0 [] (by simpa using hcalls)

/-- C28 witness: at a host whose pull request is linked to no work item, the comment `hello`
is dropped: nil is returned and the fetch is the only outbound call. -/
theorem CreateComment_no_work_item_witness :
    (GetPullRequest noWorkItemHost () testRepo 1).out =
        .returned (some { WorkItemRefs := [] }, none) ∧
      (CreateComment noWorkItemHost renderParagraph () testRepo 1 "hello").out =
        .returned none ∧
      commentCalls (CreateComment noWorkItemHost renderParagraph () testRepo 1 "hello") = [] ∧
      (CreateComment noWorkItemHost renderParagraph () testRepo 1 "hello").calls =
        (GetPullRequest noWorkItemHost () testRepo 1).calls :=
  ⟨by decide,
    CreateComment_no_work_item noWorkItemHost renderParagraph () testRepo 1 "hello"
      { WorkItemRefs := [] } (by decide) rfl⟩

/-- C29: at a host that answers the merge call without a transport error and without a
`mergeStatus`, as the response of `TestPullRequestsService_Merge` does, `MergePull` neither
returns nil nor an error: the merge-status check dereferences the nil `MergeStatus` and
panics. -/
theorem MergePull_panics_without_merge_status :
    (MergePull.response noMergeStatusHost () { Num := 22, BaseRepo := testRepo }).1.2 = none ∧
      (∃ r, (MergePull.response noMergeStatusHost () { Num := 22, BaseRepo := testRepo }).1.1 =
          some r ∧ r.MergeStatus = none) ∧
      (MergePull noMergeStatusHost () { Num := 22, BaseRepo := testRepo }).out = .nilDeref :=
  ⟨by decide, ⟨_, rfl, rfl⟩, by decide⟩

/-! ### First outbound calls -/

/-- The one outbound call of `PullIsApproved` is the pull-request fetch. -/
theorem PullIsApproved_calls_eq {σ : Type} (g : Client σ) (h : σ) (repo : Repo)
    (pull : PullRequest) :
    (PullIsApproved g h repo pull).calls =
      [Call.GetWithRepo (SplitAzureDevopsRepoFullName repo.FullName).1
        (SplitAzureDevopsRepoFullName repo.FullName).2.1
        (SplitAzureDevopsRepoFullName repo.FullName).2.2 pull.Num
        { IncludeWorkItemRefs := true }] := by
  unfold PullIsApproved
  rcases SplitAzureDevopsRepoFullName repo.FullName with ⟨owner, project, repoName⟩
  rcases hr : g.GetWithRepo h owner project repoName pull.Num { IncludeWorkItemRefs := true }
    with ⟨⟨adPull, err⟩, h1⟩
  simp only [hr]
  cases err with
  | some e => rfl
  | none =>
    cases adPull with
    | none => rfl
    | some p =>
      simp only
      cases PullIsApproved.loop p.Reviewers <;> rfl

/-- The one outbound call of `PullIsMergeable` is the pull-request fetch. -/
theorem PullIsMergeable_calls_eq {σ : Type} (g : Client σ) (h : σ) (repo : Repo)
    (pull : PullRequest) :
    (PullIsMergeable g h repo pull).calls =
      [Call.GetWithRepo (SplitAzureDevopsRepoFullName repo.FullName).1
        (SplitAzureDevopsRepoFullName repo.FullName).2.1
        (SplitAzureDevopsRepoFullName repo.FullName).2.2 pull.Num
        { IncludeWorkItemRefs := true }] := by
  unfold PullIsMergeable
  rcases SplitAzureDevopsRepoFullName repo.FullName with ⟨owner, project, repoName⟩
  rcases hr : g.GetWithRepo h owner project repoName pull.Num { IncludeWorkItemRefs := true }
    with ⟨⟨adPull, err⟩, h1⟩
  simp only [hr]
  cases err with
  | some e => rfl
  | none =>
    cases adPull with
    | none => rfl
    | some p =>
      cases hm : p.MergeStatus with
      | none => simp only [hm]
      | some s =>
        simp only [hm]
        split_ifs <;> rfl

/-- The first outbound call of `CreateComment` is the pull-request fetch, in every branch. -/
theorem CreateComment_first_call {σ : Type} (g : Client σ) (md : String → String) (h : σ)
    (repo : Repo) (pullNum : Int) (comment : String) :
    (CreateComment g md h repo pullNum comment).calls.head? =
      some (Call.GetWithRepo (SplitAzureDevopsRepoFullName repo.FullName).1
        (SplitAzureDevopsRepoFullName repo.FullName).2.1
        (SplitAzureDevopsRepoFullName repo.FullName).2.2 pullNum
        { IncludeWorkItemRefs := true }) := by
  unfold CreateComment
  rcases SplitAzureDevopsRepoFullName repo.FullName with ⟨owner, project, repoName⟩
  rcases hr : g.GetWithRepo h owner project repoName pullNum { IncludeWorkItemRefs := true }
    with ⟨⟨pull, err⟩, h1⟩
  simp only [hr]
  cases err with
  | some e => rfl
  | none =>
    cases pull with
    | none => rfl
    | some p =>
      simp only
      split_ifs
      · cases hhead : p.WorkItemRefs.head? with
        | none => rfl
        | some first =>
          cases first with
          | none => rfl
          | some ref =>
            cases hid : ref.ID with
            | none => simp only [hid]; rfl
            | some id =>
              simp only [hid]
              cases strconvAtoi id <;> rfl
      · rfl
      · rfl

/-- C30: for every repo full name, the malformed ones that split into three empty strings
among them, the first outbound call of `GetModifiedFiles`, `CreateComment`, `PullIsApproved`,
`PullIsMergeable`, `GetPullRequest`, `UpdateStatus` and `MergePull` is issued with exactly the
owner, project and repo that `SplitAzureDevopsRepoFullName` returns. -/
theorem first_call_passes_split {σ : Type} (g : Client σ) (md : String → String) (h : σ)
    (repo : Repo) (pull : PullRequest) (num : Int) (comment : String) (state : CommitStatus)
    (src description url : String) :
    (GetModifiedFiles g h repo pull).calls.head? =
        some (Call.GetWithRepo (SplitAzureDevopsRepoFullName repo.FullName).1
          (SplitAzureDevopsRepoFullName repo.FullName).2.1
          (SplitAzureDevopsRepoFullName repo.FullName).2.2 pull.Num
          { IncludeWorkItemRefs := true }) ∧
      (CreateComment g md h repo num comment).calls.head? =
        some (Call.GetWithRepo (SplitAzureDevopsRepoFullName repo.FullName).1
          (SplitAzureDevopsRepoFullName repo.FullName).2.1
          (SplitAzureDevopsRepoFullName repo.FullName).2.2 num
          { IncludeWorkItemRefs := true }) ∧
      (PullIsApproved g h repo pull).calls.head? =
        some (Call.GetWithRepo (SplitAzureDevopsRepoFullName repo.FullName).1
          (SplitAzureDevopsRepoFullName repo.FullName).2.1
          (SplitAzureDevopsRepoFullName repo.FullName).2.2 pull.Num
          { IncludeWorkItemRefs := true }) ∧
      (PullIsMergeable g h repo pull).calls.head? =
        some (Call.GetWithRepo (SplitAzureDevopsRepoFullName repo.FullName).1
          (SplitAzureDevopsRepoFullName repo.FullName).2.1
          (SplitAzureDevopsRepoFullName repo.FullName).2.2 pull.Num
          { IncludeWorkItemRefs := true }) ∧
      (GetPullRequest g h repo num).calls.head? =
        some (Call.GetWithRepo (SplitAzureDevopsRepoFullName repo.FullName).1
          (SplitAzureDevopsRepoFullName repo.FullName).2.1
          (SplitAzureDevopsRepoFullName repo.FullName).2.2 num
          { IncludeWorkItemRefs := true }) ∧
      (UpdateStatus g h repo pull state src description url).calls.head? =
        some (Call.CreateStatus (SplitAzureDevopsRepoFullName repo.FullName).1
          (SplitAzureDevopsRepoFullName repo.FullName).2.1
          (SplitAzureDevopsRepoFullName repo.FullName).2.2 pull.HeadCommit
          (UpdateStatus.status state src description url)) ∧
      (MergePull g h pull).calls.head? =
        some (Call.Merge (SplitAzureDevopsRepoFullName pull.BaseRepo.FullName).1
          (SplitAzureDevopsRepoFullName pull.BaseRepo.FullName).2.1
          (SplitAzureDevopsRepoFullName pull.BaseRepo.FullName).2.2 pull.Num
          MergePull.mergePull MergePull.completionOpts MergePull.id) ∧
      (SplitAzureDevopsRepoFullName repo.FullName = ("", "", "") →
        (GetPullRequest g h repo num).calls.head? =
          some (Call.GetWithRepo "" "" "" num { IncludeWorkItemRefs := true })) := by
  refine ⟨?_, CreateComment_first_call g md h repo num comment, ?_, ?_, ?_, ?_, ?_, ?_⟩
  · rw [(GetModifiedFiles_exec g h repo pull).1]
    rfl
  · rw [PullIsApproved_calls_eq]
    rfl
  · rw [PullIsMergeable_calls_eq]
    rfl
  · rw [GetPullRequest_calls_eq]
    rfl
  · rw [(UpdateStatus_exec g h repo pull state src description url).1]
    rfl
  · rw [MergePull_calls_eq]
    rfl
  · intro hsentinel
    rw [GetPullRequest_calls_eq, hsentinel]
    rfl

/-! ### Claims on the comment chunker and the webhook validator -/

/-- A segment of the chunker is at most `maxWithSep` characters of text plus the footer and
the header. -/
theorem SplitComment_portion_length (comment : List Char) (maxWithSep numComments : Nat)
    (sepEnd sepStart : String) (i : Nat) :
    (SplitComment.portion comment maxWithSep numComments sepEnd sepStart i).length ≤
      maxWithSep + sepEnd.length + sepStart.length := by
  have htake : ((comment.drop (i * maxWithSep)).take
      (min comment.length ((i + 1) * maxWithSep) - i * maxWithSep)).length ≤ maxWithSep := by
    rw [List.length_take]
    have hmul : (i + 1) * maxWithSep = i * maxWithSep + maxWithSep := Nat.succ_mul i maxWithSep
    omega
  unfold SplitComment.portion
  simp only [String.length]
  split_ifs <;> (try simp only [List.length_append]) <;> omega

/-- C25: every segment of a comment split with max length 65536 and the footer and header of
`CreateComment` has at most 65536 characters, footer and header included, and a comment of at
most 65536 characters gives exactly one segment, the comment itself. -/
theorem SplitComment_segments_bounded (comment : String) :
    (∀ seg ∈ SplitComment comment CreateComment.maxCommentLength CreateComment.sepEnd
        CreateComment.sepStart, seg.length ≤ 65536) ∧
      (comment.length ≤ 65536 →
        SplitComment comment CreateComment.maxCommentLength CreateComment.sepEnd
          CreateComment.sepStart = [comment]) := by
  have hend : CreateComment.sepEnd.length = 106 := by decide
  have hstart : CreateComment.sepStart.length = 82 := by decide
  have hmax : CreateComment.maxCommentLength = 65536 := rfl
  constructor
  · intro seg hseg
    unfold SplitComment at hseg
    split_ifs at hseg with hshort
    · rw [List.mem_singleton] at hseg
      rw [hseg]
      rw [hmax] at hshort
      exact hshort
    · simp only [List.mem_map] at hseg
      obtain ⟨i, _, rfl⟩ := hseg
      have hle := SplitComment_portion_length comment.data
        (CreateComment.maxCommentLength - CreateComment.sepEnd.length -
          CreateComment.sepStart.length)
        ((comment.length + (CreateComment.maxCommentLength - CreateComment.sepEnd.length -
          CreateComment.sepStart.length) - 1) /
          (CreateComment.maxCommentLength - CreateComment.sepEnd.length -
            CreateComment.sepStart.length))
        CreateComment.sepEnd CreateComment.sepStart i
      rw [hend, hstart, hmax] at hle
      rw [hend, hstart, hmax]
      omega
  · intro hshort
    unfold SplitComment
    rw [if_pos (by rw [hmax]; exact hshort)]

/-- C22: for every request whose Basic-auth pair equals the expected pair, or when no
credentials are configured, and whose content type is `application/json`, `Validate` returns
no error and the request body as payload, unmodified. -/
theorem Validate_returns_body (r : WebhookRequest) (user pass : String)
    (hauth : (user = "" ∧ pass = "") ∨ r.basicAuth = some (user, pass))
    (hct : r.contentType = "application/json") :
    Validate r user pass = (some r.body, none) := by
  have hnot : ¬ (credentialsConfigured user pass = true ∧
      r.basicAuth ≠ some (user, pass)) := by
    rintro ⟨hconf, hne⟩
    rcases hauth with ⟨hu, _⟩ | heq
    · simp [credentialsConfigured, hu] at hconf
    · exact hne heq
  have haccept : acceptsContentType r.contentType = true := by
    rw [hct]
    decide
  unfold Validate
  rw [if_neg hnot, if_pos haccept]

/-- C22 witness: the request of `TestAzureDevopsValidate_WithBasicAuth`, user `user` with
password `pass` and a JSON body, is accepted against the same pair, and the request of
`TestAzureDevopsValidate_WithoutSecretJSON` without any credentials; the payload is the
body. -/
theorem Validate_returns_body_witness :
    Validate { basicAuth := some ("user", "pass"), contentType := "application/json",
               body := "\x7b\"yo\":true\x7d" } "user" "pass" =
        (some "\x7b\"yo\":true\x7d", none) ∧
      Validate { contentType := "application/json", body := "\x7b\"yo\":true\x7d" } "" "" =
        (some "\x7b\"yo\":true\x7d", none) :=
  ⟨Validate_returns_body
      { basicAuth := some ("user", "pass"), contentType := "application/json",
        body := "\x7b\"yo\":true\x7d" } "user" "pass" (Or.inr rfl) rfl,
    Validate_returns_body { contentType := "application/json", body := "\x7b\"yo\":true\x7d" }
      "" "" (Or.inl ⟨rfl, rfl⟩) rfl⟩

/-- C23: when non-empty expected credentials are configured and the Basic-auth pair of the
request differs from them, `Validate` returns no payload and an error whose message contains
`authentication failed`, and it returns the same whatever the content type and the body of
the request are. -/
theorem Validate_rejects_wrong_credentials (r : WebhookRequest) (user pass u p : String)
    (huser : user ≠ "") (hpass : pass ≠ "")
    (hreq : r.basicAuth = some (u, p)) (hdiff : (u, p) ≠ (user, pass)) :
    Validate r user pass = (none, some authenticationError) ∧
      stringsContains authenticationError.Error "authentication failed" = true ∧
      (∀ ct body : String,
        Validate { r with contentType := ct, body := body } user pass =
          Validate r user pass) := by
  have hconf : credentialsConfigured user pass = true := by
    simp [credentialsConfigured, huser, hpass]
  have hne : r.basicAuth ≠ some (user, pass) := by
    rw [hreq]
    intro heq
    exact hdiff (Option.some.inj heq)
  have hres : ∀ r' : WebhookRequest, r'.basicAuth = r.basicAuth →
      Validate r' user pass = (none, some authenticationError) := by
    intro r' hr'
    unfold Validate
    rw [if_pos ⟨hconf, by rw [hr']; exact hne⟩]
  refine ⟨hres r rfl, by decide, ?_⟩
  intro ct body
  rw [hres r rfl]
  exact hres _ rfl

/-- C23 witness: the request of `TestAzureDevopsValidate_WithBasicAuthErr`, user `user` with
password `pass`, is rejected against the expected pair `user` and `wrongpass`. -/
theorem Validate_rejects_wrong_credentials_witness :
    (("user" : String) ≠ "" ∧ ("wrongpass" : String) ≠ "" ∧
        (("user", "pass") : String × String) ≠ ("user", "wrongpass")) ∧
      Validate { basicAuth := some ("user", "pass"), contentType := "application/json" }
          "user" "wrongpass" =
        (none, some (.plain "ValidatePayload authentication failed")) :=
  ⟨⟨by decide, by decide, by decide⟩,
    (Validate_rejects_wrong_credentials
      { basicAuth := some ("user", "pass"), contentType := "application/json" }
      "user" "wrongpass" "user" "pass" (by decide) (by decide) rfl (by decide)).1⟩

/-- C24: when authentication is not required or succeeds and the content type `v` of the
request is not `application/json` (with or without parameters), `Validate` returns no payload
and the error `webhook request has unsupported Content-Type "v"`, with the literal value
received between the quotes. -/
theorem Validate_unsupported_content_type (r : WebhookRequest) (user pass : String)
    (hauth : (user = "" ∧ pass = "") ∨ r.basicAuth = some (user, pass))
    (hct : acceptsContentType r.contentType = false) :
    ∃ e, Validate r user pass = (none, some e) ∧
      e.Error = "webhook request has unsupported Content-Type \"" ++ r.contentType ++ "\"" := by
  have hnot : ¬ (credentialsConfigured user pass = true ∧
      r.basicAuth ≠ some (user, pass)) := by
    rintro ⟨hconf, hne⟩
    rcases hauth with ⟨hu, _⟩ | heq
    · simp [credentialsConfigured, hu] at hconf
    · exact hne heq
  refine ⟨unsupportedContentTypeError r.contentType, ?_, rfl⟩
  unfold Validate
  rw [if_neg hnot, if_neg (by rw [hct]; decide)]

/-- C24 witness: the request of `TestAzureDevopsValidate_WithoutSecretInvalidContentType`,
content type `invalid` and no credentials, gets the error
`webhook request has unsupported Content-Type "invalid"`. -/
theorem Validate_unsupported_content_type_witness :
    acceptsContentType "invalid" = false ∧
      ∃ e, Validate { contentType := "invalid" } "" "" = (none, some e) ∧
        e.Error = "webhook request has unsupported Content-Type \"" ++ "invalid" ++ "\"" :=
  ⟨by decide,
    Validate_unsupported_content_type { contentType := "invalid" } "" ""
      (Or.inl ⟨rfl, rfl⟩) (by decide)⟩

end AzureDevops
